import Mathlib

/-!
Verification of the recipe parsing/normalization/scaling core of the
leftovers-wiki repository (src/app/components/RecipeCard.tsx), against its
natural-language specification.

Modelling conventions:
* JavaScript strings are modelled as Lean `String`/`List Char`; the JS
  regular-expression operations used by the source are small enough that each
  one is embedded as an explicit scanner over `List Char`, faithful to the
  leftmost-match, greedy-with-backtracking semantics of the concrete pattern.
* JavaScript numbers are modelled as exact rationals (`ℚ`).  On every input
  appearing in a theorem below the double-precision arithmetic performed by
  the source is exact, so the rational model agrees with it.  Division by a
  zero denominator (which yields Infinity/NaN in JS) is outside the modelled
  domain and never exercised.
* Functions keep the names of the source functions where possible
  (`parseRecipeString`, `sanitizeText`, `scaleIngredient`, `parseNumber`
  is inlined into the scanning passes, `parseTimeToMinutes`,
  `formatTimeFromMinutes`, `stripMarkdown`).
-/

namespace RecipeSpec

/-! ### Character classes and basic string utilities -/

/-- The whitespace class used by JS `trim` and `\s` (ASCII part). -/
def jsWs (c : Char) : Bool := c.isWhitespace || c = '\x0b' || c = '\x0c'

/-- JS `String.prototype.trim`: drop whitespace from both ends. -/
def trimBoth (l : List Char) : List Char :=
  ((l.dropWhile jsWs).reverse.dropWhile jsWs).reverse

/-- JS `toLowerCase` (ASCII). -/
def lowerList (l : List Char) : List Char := l.map Char.toLower

/-- Does `pre` occur at the head of `l`? -/
def leadsWith : List Char → List Char → Bool
  | [], _ => true
  | _ :: _, [] => false
  | p :: ps, c :: cs => p == c && leadsWith ps cs

/-- Case-insensitive head test: `pre` is given in lowercase. -/
def leadsWithCI (pre l : List Char) : Bool := leadsWith pre (lowerList l)

/-- JS `String.prototype.includes`: does `sub` occur anywhere in `l`? -/
def hasSub (l sub : List Char) : Bool :=
  match l with
  | [] => sub.isEmpty
  | _ :: t => leadsWith sub l || hasSub t sub

/-- Case-insensitive containment (the `key` is given in lowercase); models a
`/key/i.test(s)` call with a literal pattern. -/
def hasSubCI (l key : List Char) : Bool := hasSub (lowerList l) key

/-- Split a string into its lines, JS `s.split('\n')`. -/
def toLines (s : String) : List (List Char) :=
  (s.split (· = '\n')).map String.data

/-- Models `str.replace(/\*\*|\*/g, '').trim()` (the source's `stripMarkdown`):
removing every `**` and `*` removes exactly every asterisk. -/
def stripMarkdown (l : List Char) : List Char :=
  trimBoth (l.filter (fun c => !(c == '*')))

/-- Models `line.replace(/^\*+|\*+$/g, '').trim()`: drop the leading and the
trailing run of asterisks, then trim. -/
def cleanNutLine (l : List Char) : List Char :=
  trimBoth (((l.dropWhile (· == '*')).reverse.dropWhile (· == '*')).reverse)

/-- Models `text.replace(/[\*#]/g, '').trim()` on a character list. -/
def sanitizeCore (l : List Char) : List Char :=
  trimBoth (l.filter (fun c => !(c == '*' || c == '#')))

/-- The source's `sanitizeText`: remove `*` and `#`, then trim. -/
def sanitizeText (s : String) : String := String.mk (sanitizeCore s.data)

/-- Models `s.replace(/k1|k2|.../i, '')` followed by dropping one optional
colon, for literal keywords: remove the first (leftmost, first-alternative)
case-insensitive occurrence of one of `keys` together with a directly
following `:` (each source pattern carries a trailing `[:]?` or `:?`).
Keys are given in lowercase. -/
def removeAltCI (keys : List (List Char)) : List Char → List Char
  | [] => []
  | c :: t =>
    match keys.find? (fun k => leadsWithCI k (c :: t)) with
    | some k =>
      match (c :: t).drop k.length with
      | x :: r => if x = ':' then r else x :: r
      | [] => []
    | none => c :: removeAltCI keys t

/-- Single-keyword variant of `removeAltCI`. -/
def removeKeyCI (key : List Char) (l : List Char) : List Char :=
  removeAltCI [key] l

/-! ### Decimal numerals -/

/-- The decimal digit characters. -/
def digitChar : Nat → Char
  | 0 => '0' | 1 => '1' | 2 => '2' | 3 => '3' | 4 => '4'
  | 5 => '5' | 6 => '6' | 7 => '7' | 8 => '8' | _ => '9'

/-- Fuel-driven decimal rendering of a natural number (JS `toString` on a
non-negative integer). Fuel `n + 1` always suffices. -/
def renderNatAux : Nat → Nat → List Char
  | 0, _ => []
  | fuel + 1, n =>
    if n < 10 then [digitChar n]
    else renderNatAux fuel (n / 10) ++ [digitChar (n % 10)]

/-- Decimal rendering of a natural number. -/
def renderNat (n : Nat) : List Char := renderNatAux (n + 1) n

/-- Decimal rendering of an integer (JS `toString`). -/
def renderInt (i : Int) : List Char :=
  if i < 0 then '-' :: renderNat i.natAbs else renderNat i.toNat

/-- JS `parseInt` on a string of decimal digits. -/
def parseDigits (l : List Char) : Nat :=
  l.foldl (fun a c => 10 * a + (c.toNat - 48)) 0

/-- JS `Math.round`: `⌊x + 1/2⌋` (this is exactly ECMA round, including
negative arguments). -/
def roundJS (q : ℚ) : ℤ := ⌊q + 1 / 2⌋

/-- JS `x.toFixed(1)` on a rational: round half-up to one decimal place
(for the dyadic/decimal values reachable in this development this agrees
with the double-precision `toFixed`). -/
def toFixed1 (q : ℚ) : List Char :=
  let n : Nat := (⌊|q| * 10 + 1 / 2⌋).toNat
  let core := renderNat (n / 10) ++ '.' :: [digitChar (n % 10)]
  if q < 0 then '-' :: core else core

/-- The formatting step of the source's `scaleIngredient` callback: an
integral value is rendered with `toString`; a non-integral one is looked up
in the `commonFractions` table (keys `0.25, 0.33, 0.5, 0.67, 0.75`, exact
equality) and otherwise rendered with `toFixed(1)`. -/
def renderQ (q : ℚ) : List Char :=
  if q.den = 1 then renderInt q.num
  else if q = 1 / 4 then ['1', '/', '4']
  else if q = 33 / 100 then ['1', '/', '3']
  else if q = 1 / 2 then ['1', '/', '2']
  else if q = 67 / 100 then ['2', '/', '3']
  else if q = 3 / 4 then ['3', '/', '4']
  else toFixed1 q

/-! ### The source's `scaleIngredient`

The JS function applies, in sequence, the three global replaces
`/(\d+\/\d+)/g`, `/(\d+\.\d+)/g`, `/(\d+)/g`, each replacing a matched token
by the formatted value `parseNumber(match) * scaleFactor`.  Because the
character classes of each pattern are disjoint from the literal separators
(`/` and `.` are not digits), the JS backtracking search degenerates to the
deterministic maximal-munch scanners below; a failed attempt advances the
scan by one character, exactly as the JS `lastIndex` does between matches.
Each scanner is fuel-driven (the input length is always enough fuel since
every step consumes at least one character). -/

/-- Fraction pass, `/(\d+\/\d+)/g`: a maximal digit run, a slash, a maximal
digit run; the token `a/b` is replaced by `renderQ (a / b * f)`
(`parseNumber` evaluates the fraction before scaling). -/
def fracPassAux (f : ℚ) : Nat → List Char → List Char
  | 0, l => l
  | _ + 1, [] => []
  | fuel + 1, c :: cs =>
    if c.isDigit then
      match (c :: cs).dropWhile Char.isDigit with
      | x :: r2 =>
        if x = '/' then
          if (r2.takeWhile Char.isDigit).isEmpty then c :: fracPassAux f fuel cs
          else
            renderQ (((parseDigits ((c :: cs).takeWhile Char.isDigit) : ℚ) /
                (parseDigits (r2.takeWhile Char.isDigit) : ℚ)) * f) ++
              fracPassAux f fuel (r2.dropWhile Char.isDigit)
        else c :: fracPassAux f fuel cs
      | [] => c :: fracPassAux f fuel cs
    else c :: fracPassAux f fuel cs

def fracPass (f : ℚ) (l : List Char) : List Char := fracPassAux f l.length l

/-- Decimal pass, `/(\d+\.\d+)/g`: the token `a.b` is replaced by
`renderQ ((a + b / 10 ^ |b|) * f)` (`parseFloat` semantics). -/
def decPassAux (f : ℚ) : Nat → List Char → List Char
  | 0, l => l
  | _ + 1, [] => []
  | fuel + 1, c :: cs =>
    if c.isDigit then
      match (c :: cs).dropWhile Char.isDigit with
      | x :: r2 =>
        if x = '.' then
          if (r2.takeWhile Char.isDigit).isEmpty then c :: decPassAux f fuel cs
          else
            renderQ (((parseDigits ((c :: cs).takeWhile Char.isDigit) : ℚ) +
                (parseDigits (r2.takeWhile Char.isDigit) : ℚ) /
                  (10 : ℚ) ^ (r2.takeWhile Char.isDigit).length) * f) ++
              decPassAux f fuel (r2.dropWhile Char.isDigit)
        else c :: decPassAux f fuel cs
      | [] => c :: decPassAux f fuel cs
    else c :: decPassAux f fuel cs

def decPass (f : ℚ) (l : List Char) : List Char := decPassAux f l.length l

/-- Integer pass, `/(\d+)/g`: every maximal digit run `n` is replaced by
`renderQ (n * f)`. -/
def intPassAux (f : ℚ) : Nat → List Char → List Char
  | 0, l => l
  | _ + 1, [] => []
  | fuel + 1, c :: cs =>
    if c.isDigit then
      renderQ ((parseDigits ((c :: cs).takeWhile Char.isDigit) : ℚ) * f) ++
        intPassAux f fuel ((c :: cs).dropWhile Char.isDigit)
    else c :: intPassAux f fuel cs

def intPass (f : ℚ) (l : List Char) : List Char := intPassAux f l.length l

/-- The source's `scaleIngredient`: the three replaces applied in sequence,
each to the result of the previous one. -/
def scaleIngredient (s : String) (f : ℚ) : String :=
  String.mk (intPass f (decPass f (fracPass f s.data)))

/-! ### Time parsing and formatting -/

/-- Scanner for the first match of `/(\d+)\s*letter/i`: a maximal digit run
followed by optional whitespace and the given letter (case-insensitively);
returns the digit run.  (Trying every start position one character at a time
is exactly the JS leftmost-match search; starting inside a digit run can
never succeed where the run start failed, since the following characters are
the same.) -/
def findNumLetter (letter : Char) : List Char → Option (List Char)
  | [] => none
  | c :: t =>
    if c.isDigit then
      match ((c :: t).dropWhile Char.isDigit).dropWhile jsWs with
      | x :: _ =>
        if x.toLower == letter then some ((c :: t).takeWhile Char.isDigit)
        else findNumLetter letter t
      | [] => findNumLetter letter t
    else findNumLetter letter t

/-- The source's `parseTimeToMinutes`: hours from the first `(\d+)\s*h`
match (default `'0'`), minutes from the first `(\d+)\s*m` match, combined as
`hours * 60 + minutes`. -/
def parseTimeToMinutes (l : List Char) : Nat :=
  (match findNumLetter 'h' l with
    | some ds => parseDigits ds
    | none => 0) * 60 +
  (match findNumLetter 'm' l with
    | some ds => parseDigits ds
    | none => 0)

/-- The source's `formatTimeFromMinutes`: `"Xh Ym"` with the minute segment
dropped when zero (the template then leaves a trailing space, removed by
`trim`), and just `"Ym"` when there is no whole hour. -/
def formatTimeFromMinutes (m : Nat) : List Char :=
  if m / 60 > 0 then
    trimBoth (renderNat (m / 60) ++ 'h' :: ' ' ::
      (if m % 60 > 0 then renderNat (m % 60) ++ ['m'] else []))
  else renderNat (m % 60) ++ ['m']

/-! ### The source's `parseRecipeString` -/

/-- The source's `Recipe` record (string fields; the optional fields are
always assigned by `parseRecipeString`, with `""`/`[]` for "absent"). -/
structure Recipe where
  title : String
  ingredients : List String
  instructions : List String
  substitutions : List String
  tips : List String
  nutrition : String
  servings : String
  servingSize : String
  totalTime : String
deriving DecidableEq

/-- `recipe.split('\n').map(l => l.trim()).filter(Boolean)`. -/
def recipeLines (recipe : String) : List (List Char) :=
  ((recipe.split (· = '\n')).map (fun s => trimBoth s.data)).filter
    (fun l => !l.isEmpty)

/-- The source's `findSection`: index of the first line whose lowercased
text contains the (lowercased) header, `none` for JS `-1`. -/
def findSection (header : String) (lines : List (List Char)) : Option Nat :=
  lines.findIdx? (fun line => hasSub (lowerList line) (lowerList header.data))

/-- Index of the first line matching `/serving size|portion size|yield/i`. -/
def findServingSizeIdx (lines : List (List Char)) : Option Nat :=
  lines.findIdx? (fun l =>
    hasSubCI l "serving size".data || hasSubCI l "portion size".data ||
      hasSubCI l "yield".data)

/-- The source's `extractSection`: `lines.slice(start, stop).filter(Boolean)`. -/
def extractSection (lines : List (List Char)) (start stop : Nat) :
    List (List Char) :=
  ((lines.take stop).drop start).filter (fun l => !l.isEmpty)

/-- The character class of `/^[-*•\d.]+\s*/`. -/
def bulletChar (c : Char) : Bool :=
  c == '-' || c == '*' || c == '•' || c.isDigit || c == '.'

/-- One application of `line.replace(/^[-*•\d.]+\s*/, '')`: when the line
starts with a class character, the whole leading class run and the following
whitespace run are removed (note the class includes digits and periods, so a
bare leading quantity is removed too). -/
def stripBulletRun (l : List Char) : List Char :=
  match l with
  | c :: _ => if bulletChar c then (l.dropWhile bulletChar).dropWhile jsWs else l
  | [] => l

/-- `line.replace(/^[-*•\d.]+\s*/, '').trim()`. -/
def cleanBulletLine (l : List Char) : List Char := trimBoth (stripBulletRun l)

/-- `/^(instructions?|substitutions?|tips?|nutritional|time)/i.test(line)`:
since each optional `s?` is subsumed by the prefix test, this is exactly
"the lowercased line starts with one of the five keywords". -/
def sectionKeyword (l : List Char) : Bool :=
  leadsWithCI "instruction".data l || leadsWithCI "substitution".data l ||
    leadsWithCI "tip".data l || leadsWithCI "nutritional".data l ||
    leadsWithCI "time".data l

/-- One application of `line.replace(/^\d+\.\s*/, '')`. -/
def stripOrdinal (l : List Char) : List Char :=
  if (l.takeWhile Char.isDigit).isEmpty then l
  else
    match l.dropWhile Char.isDigit with
    | x :: r => if x = '.' then r.dropWhile jsWs else l
    | [] => l

/-- `/^(serves|prep|cook|total time|yield|serving size)/i.test(line)`: the
stop condition of the nutrition-collection loop. -/
def nutStop (l : List Char) : Bool :=
  leadsWithCI "serves".data l || leadsWithCI "prep".data l ||
    leadsWithCI "cook".data l || leadsWithCI "total time".data l ||
    leadsWithCI "yield".data l || leadsWithCI "serving size".data l

/-- Line `i` of `lines` (in-bounds whenever taken from a `findIdx?` hit). -/
def getLine (lines : List (List Char)) (i : Nat) : List Char :=
  (lines.get? i).getD []

/-- The source's `parseRecipeString`, section by section:
* ingredients need both the ingredients and the instructions header;
* instructions need their own header and run to the substitutions header or
  the end of the document;
* substitutions need both the substitutions and the tips header;
* tips need their own header and run to the nutrition header or the end;
* the nutrition block runs from its header to the first
  serves/prep/cook/total time/yield/serving size line;
* servings / serving size / total time are single lines with their keyword
  removed. -/
def parseRecipeString (recipe : String) : Recipe :=
  let lines := recipeLines recipe
  let ingredientsIndex := findSection "ingredient" lines
  let instructionsIndex := findSection "instruction" lines
  let substitutionsIndex := findSection "substitution" lines
  let tipsIndex := findSection "tip" lines
  let nutritionIndex := findSection "nutrition" lines
  let timeIndex := findSection "total time" lines
  let servesIndex := findSection "serves" lines
  let servingSizeIndex := findServingSizeIdx lines
  let ingredients :=
    match ingredientsIndex, instructionsIndex with
    | some i, some j =>
      ((extractSection lines (i + 1) j).map cleanBulletLine).filter
        (fun (l : List Char) => !l.isEmpty && !sectionKeyword l)
    | _, _ => []
  let instructions :=
    match instructionsIndex with
    | some j =>
      ((extractSection lines (j + 1)
          (match substitutionsIndex with
            | some k => k
            | none => lines.length)).map
        (fun l => trimBoth (stripOrdinal l))).filter (fun (l : List Char) => !l.isEmpty)
    | none => []
  let substitutions :=
    match substitutionsIndex, tipsIndex with
    | some k, some m =>
      ((extractSection lines (k + 1) m).map cleanBulletLine).filter
        (fun (l : List Char) => !l.isEmpty)
    | _, _ => []
  let tips :=
    match tipsIndex with
    | some m =>
      ((extractSection lines (m + 1)
          (match nutritionIndex with
            | some n => n
            | none => lines.length)).map cleanBulletLine).filter
        (fun (l : List Char) => !l.isEmpty)
    | none => []
  let nutrition :=
    match nutritionIndex with
    | some i =>
      String.mk (trimBoth
        ((((lines.drop (i + 1)).takeWhile (fun l => !nutStop l)).map
          (fun l => l ++ ['\n'])).flatten))
    | none => ""
  let title :=
    match lines with
    | [] => "Untitled Recipe"
    | l :: _ => String.mk l
  let servings :=
    match servesIndex with
    | some i => String.mk (trimBoth (removeKeyCI "serves".data (getLine lines i)))
    | none => ""
  let servingSize :=
    match servingSizeIndex with
    | some i =>
      String.mk (trimBoth (removeAltCI
        ["serving size".data, "portion size".data, "yield".data]
        (getLine lines i)))
    | none => ""
  let totalTime :=
    match timeIndex with
    | some i =>
      String.mk (trimBoth
        (removeKeyCI "total time required".data (getLine lines i)))
    | none => ""
  { title := title, ingredients := ingredients.map String.mk,
    instructions := instructions.map String.mk,
    substitutions := substitutions.map String.mk,
    tips := tips.map String.mk, nutrition := nutrition,
    servings := servings, servingSize := servingSize, totalTime := totalTime }

/-! ### The nutrition sub-parser (the `forEach` loop over
`parsedRecipe.nutrition.split('\n')` in `RecipeCard`) -/

/-- JS `clean.split(':')` destructured as `[label, ...rest]`: `none` when the
line has no colon (`rest.length == 0`), otherwise the text before the first
colon and the text after it (`rest.join(':')`). -/
def breakColon : List Char → Option (List Char × List Char)
  | [] => none
  | c :: t =>
    if c = ':' then some ([], t)
    else
      match breakColon t with
      | some (a, b) => some (c :: a, b)
      | none => none

/-- `/^(calories( per serving)?|estimated calories|energy)[:]?/i.test(clean)`:
the regex is anchored and both optional groups are irrelevant for `test`, so
this is exactly "starts (case-insensitively) with one of the three bases".
In particular a leading `~` or `Approximately` makes the test fail. -/
def caloriesLine (l : List Char) : Bool :=
  leadsWithCI "calories".data l || leadsWithCI "estimated calories".data l ||
    leadsWithCI "energy".data l

/-- `/^protein|carb|fat|sodium|fiber|vitamin|iron|calcium|potassium/i.test`:
the anchor binds only to the first alternative, so `protein` is a prefix
test and the other labels are substring tests. -/
def factLabelLine (l : List Char) : Bool :=
  leadsWithCI "protein".data l || hasSubCI l "carb".data ||
    hasSubCI l "fat".data || hasSubCI l "sodium".data ||
    hasSubCI l "fiber".data || hasSubCI l "vitamin".data ||
    hasSubCI l "iron".data || hasSubCI l "calcium".data ||
    hasSubCI l "potassium".data

/-- `/note[:]?/i.test(clean)`: an unanchored substring test. -/
def noteLine (l : List Char) : Bool := hasSubCI l "note".data

/-- JS object update `facts[k] = v`: overwrite in place or append. -/
def setFact (k v : String) : List (String × String) → List (String × String)
  | [] => [(k, v)]
  | (k', v') :: t => if k' = k then (k, v) :: t else (k', v') :: setFact k v t

/-- One iteration of the nutrition `forEach`: clean the line, then classify
by the first matching branch (note, calories, fact label); the two fact
branches record an entry only when the line has a colon and a non-empty
label. -/
def nutritionStep (acc : List (String × String) × String) (line : List Char) :
    List (String × String) × String :=
  let clean := cleanNutLine line
  if noteLine clean then
    (acc.1, String.mk (stripMarkdown (removeKeyCI "note".data clean)))
  else if caloriesLine clean then
    match breakColon clean with
    | some (label, rest) =>
      if label ≠ [] then
        (setFact "Calories" (String.mk (stripMarkdown rest)) acc.1, acc.2)
      else acc
    | none => acc
  else if factLabelLine clean then
    match breakColon clean with
    | some (label, rest) =>
      if label ≠ [] then
        (setFact (String.mk (stripMarkdown label))
          (String.mk (stripMarkdown rest)) acc.1, acc.2)
      else acc
    | none => acc
  else acc

/-- The nutrition facts and note collected from the nutrition block. -/
def parseNutritionFacts (nutrition : String) : List (String × String) × String :=
  (toLines nutrition).foldl nutritionStep ([], "")

/-! ### Prep/cook/total time extraction and the derived total time -/

/-- One iteration of the time-extraction `forEach`: three independent
(non-exclusive) substring tests, each overwriting its field; last matching
line wins. -/
def timesStep (acc : List Char × List Char × List Char) (line : List Char) :
    List Char × List Char × List Char :=
  let clean := cleanNutLine line
  let p := if hasSubCI clean "prep time".data then
      stripMarkdown (removeKeyCI "prep time".data clean)
    else acc.1
  let c := if hasSubCI clean "cook time".data then
      stripMarkdown (removeKeyCI "cook time".data clean)
    else acc.2.1
  let t := if hasSubCI clean "total time".data then
      stripMarkdown (removeKeyCI "total time".data clean)
    else acc.2.2
  (p, c, t)

/-- Prep, cook and embedded total time scanned from the nutrition block. -/
def scanTimes (nutrition : String) : List Char × List Char × List Char :=
  (toLines nutrition).foldl timesStep ([], [], [])

/-- The total-time computation of `RecipeCard` (lines 212–234 of the
source): when both prep and cook time strings are non-empty and their parsed
minute sum is positive, the formatted sum; otherwise, when at least one of
them is empty, the explicit `parsedRecipe.totalTime` field (markdown
stripped) provided it is truthy, not `'required:'` lowercased, and not
whitespace-only; in every remaining case whatever embedded total-time line
the nutrition scan produced (possibly empty). -/
def derivedTotalTime (nutrition : String) (explicitTotal : String) : String :=
  let p := (scanTimes nutrition).1
  let c := (scanTimes nutrition).2.1
  let t0 := (scanTimes nutrition).2.2
  if p ≠ [] ∧ c ≠ [] then
    if parseTimeToMinutes p + parseTimeToMinutes c > 0 then
      String.mk (formatTimeFromMinutes (parseTimeToMinutes p + parseTimeToMinutes c))
    else String.mk t0
  else if explicitTotal ≠ "" ∧
      String.mk (lowerList explicitTotal.data) ≠ "required:" ∧
      trimBoth explicitTotal.data ≠ [] then
    String.mk (stripMarkdown explicitTotal.data)
  else String.mk t0

/-! ### Calorie-estimation fallback -/

/-- The source's `calorieLookup` table, in JS object insertion order. -/
def calorieTable : List (List Char × ℚ) :=
  [("olive oil".data, 120), ("onion".data, 45), ("garlic".data, 4),
   ("ginger".data, 2), ("turmeric powder".data, 8), ("cumin powder".data, 8),
   ("coriander powder".data, 6), ("garam masala".data, 8),
   ("red pepper flakes".data, 6), ("spinach".data, 7),
   ("vegetable broth".data, 10), ("goat cheese".data, 75),
   ("cilantro".data, 1), ("brown rice".data, 110)]

/-- The first (leftmost) match of `/\d+(\.\d+)?/`, as a rational
(`parseFloat` of the matched text).  The optional group takes a following
`.digits` when present. -/
def firstNumTok : List Char → Option ℚ
  | [] => none
  | c :: t =>
    if c.isDigit then
      match (c :: t).dropWhile Char.isDigit with
      | x :: r2 =>
        if x = '.' && !(r2.takeWhile Char.isDigit).isEmpty then
          some ((parseDigits ((c :: t).takeWhile Char.isDigit) : ℚ) +
            (parseDigits (r2.takeWhile Char.isDigit) : ℚ) /
              (10 : ℚ) ^ (r2.takeWhile Char.isDigit).length)
        else some ((parseDigits ((c :: t).takeWhile Char.isDigit) : ℚ))
      | [] => some ((parseDigits ((c :: t).takeWhile Char.isDigit) : ℚ))
    else firstNumTok t

/-- The first match of `/(\d+)g/` (case-sensitive `g`). -/
def firstGrams : List Char → Option Nat
  | [] => none
  | c :: t =>
    if c.isDigit then
      match (c :: t).dropWhile Char.isDigit with
      | x :: _ =>
        if x = 'g' then some (parseDigits ((c :: t).takeWhile Char.isDigit))
        else firstGrams t
      | [] => firstGrams t
    else firstGrams t

/-- The quantity multiplier of the calorie fallback: 1 when the ingredient
has no digit, otherwise the first `\d+(\.\d+)?` match; for the
`goat cheese` entry a `(\d+)g` match instead divides the grams by 30 (when
no such match exists the plain multiplier is kept). -/
def ingredientMult (key : List Char) (ing : List Char) : ℚ :=
  let base : ℚ :=
    if ing.any Char.isDigit then
      match firstNumTok ing with
      | some v => v
      | none => 1
    else 1
  if key = "goat cheese".data && ing.any Char.isDigit then
    match firstGrams ing with
    | some g => (g : ℚ) / 30
    | none => base
  else base

/-- Contribution of one ingredient: the first table entry whose name occurs
in the lowercased ingredient wins (the loop `break`s), and contributes
`calories * multiplier`; no entry, no contribution. -/
def ingredientCalories (ing : String) : ℚ :=
  match calorieTable.find? (fun e => hasSub (lowerList ing.data) e.1) with
  | some e => e.2 * ingredientMult e.1 ing.data
  | none => 0

/-- The accumulated `totalCalories` of the fallback loop. -/
def estimateCalories (ings : List String) : ℚ :=
  ings.foldl (fun acc i => acc + ingredientCalories i) 0

/-- The rendered fallback value: `` `~${Math.round(total)} (estimated)` ``
when the total is positive, nothing otherwise. -/
def caloriesFallback (ings : List String) : Option String :=
  if estimateCalories ings > 0 then
    some ("~" ++ String.mk (renderInt (roundJS (estimateCalories ings))) ++
      " (estimated)")
  else none

/-! ### Serving-size display -/

/-- JS `\w`: ASCII word characters. -/
def isWordChar (c : Char) : Bool := c.isAlpha || c.isDigit || c == '_'

/-- Match `\s+per\s+serving` (case-insensitive) at the head of `l`,
returning the consumed length.  Both `\s+` are forced maximal since `p`/`s`
are not whitespace. -/
def checkTail (l : List Char) : Option Nat :=
  let w1 := (l.takeWhile jsWs).length
  if w1 = 0 then none
  else
    let l1 := l.drop w1
    if leadsWithCI "per".data l1 then
      let l2 := l1.drop 3
      let w2 := (l2.takeWhile jsWs).length
      if w2 = 0 then none
      else if leadsWithCI "serving".data (l2.drop w2) then
        some (w1 + 3 + w2 + 7)
      else none
    else none

/-- Candidate greedy lengths `n, n-1, …, 1`. -/
def descLens (n : Nat) : List Nat := (List.range n).reverse.map (· + 1)

/-- Attempt `([\d.]+\s*\w+)\s+per\s+serving` at the head of `l`, with the JS
backtracking order: the `[\d.]+` length from greedy down, the `\s*` run
forced maximal (a word character is never whitespace), then the `\w+` length
from greedy down. Returns the matched length. -/
def matchPSAt (l : List Char) : Option Nat :=
  (descLens ((l.takeWhile (fun c => c.isDigit || c == '.')).length)).findSome?
    (fun dk =>
      let l1 := l.drop dk
      let ws := (l1.takeWhile jsWs).length
      let l2 := l1.drop ws
      (descLens ((l2.takeWhile isWordChar).length)).findSome? (fun wk =>
        (checkTail (l2.drop wk)).map (fun t => dk + ws + wk + t)))

/-- `str.match(/([\d.]+\s*\w+)\s+per\s+serving/i)?.[0]`: the leftmost match. -/
def matchPS : List Char → Option (List Char)
  | [] => none
  | c :: t =>
    match matchPSAt (c :: t) with
    | some n => some ((c :: t).take n)
    | none => matchPS t

/-- `/\(|note[:]?/i.test(s)`: a parenthesis anywhere or the substring
`note`. -/
def noteMarkerSS (l : List Char) : Bool :=
  l.any (· == '(') || hasSubCI l "note".data

/-- One application of `replace(/^(a|an)\s+/i, '')`: the alternative `a` is
tried first, so a leading `a`/`A` followed by whitespace is removed with the
whitespace run, else a leading `an` followed by whitespace. -/
def removeArticle (l : List Char) : List Char :=
  match l with
  | c :: rest =>
    if c.toLower == 'a' then
      if !(rest.takeWhile jsWs).isEmpty then rest.dropWhile jsWs
      else
        match rest with
        | n :: rest2 =>
          if n.toLower == 'n' && !(rest2.takeWhile jsWs).isEmpty then
            rest2.dropWhile jsWs
          else l
        | [] => l
    else l
  | [] => l

/-- One application of `replace(/\.$/, '')`. -/
def removeTrailPeriod (l : List Char) : List Char :=
  match l.reverse with
  | x :: t => if x = '.' then t.reverse else l
  | [] => l

/-- The serving-size display of `RecipeCard` (lines 239–253 of the source):
branch (a) requires a non-empty `servingSize` whose markdown-stripped form
has no parenthesis and no `note` substring, and uses the matched substring
of the per-serving pattern (not the whole field) or the
`1 <cleaned> per serving` reformat; branch (b) fires for any non-empty
`servings` string; branch (c) is the literal fallback. -/
def displayServingSize (servingSize servings : String) : String :=
  if servingSize ≠ "" ∧ noteMarkerSS (stripMarkdown servingSize.data) = false then
    match matchPS servingSize.data with
    | some m => String.mk m
    | none =>
      String.mk ('1' :: ' ' ::
        (removeTrailPeriod (removeArticle servingSize.data)) ++
        " per serving".data)
  else if servings ≠ "" then
    String.mk ("1 of ".data ++ stripMarkdown servings.data ++
      " portions (estimated)".data)
  else "Serving size not specified"

/-! ### Definitions written from the specification's words (for comparison
with the source-derived definitions above) -/

/-- Modelled from the spec (§4.3 / claim C1): strip only a single leading
bullet marker (hyphen, asterisk, bullet glyph) or a single leading ordinal
(digits followed by a period), then trim — so a bare leading quantity is
preserved. -/
def specCleanLine (l : List Char) : List Char :=
  match l with
  | c :: rest =>
    if c == '-' || c == '*' || c == '•' then trimBoth rest
    else if (l.takeWhile Char.isDigit).isEmpty then trimBoth l
    else
      match l.dropWhile Char.isDigit with
      | x :: r => if x = '.' then trimBoth r else trimBoth l
      | [] => trimBoth l
  | [] => []

/-- Modelled from claim C1: the parsed ingredients, per the claim's words —
the non-empty lines strictly between the two headers, each cleaned by
`specCleanLine`, discarding lines that come out empty or still match a
section-header keyword. `none` when one of the two headers is absent. -/
def specIngredientsC1 (recipe : String) : Option (List String) :=
  let lines := recipeLines recipe
  match findSection "ingredient" lines, findSection "instruction" lines with
  | some i, some j =>
    some ((((extractSection lines (i + 1) j).map specCleanLine).filter
      (fun (l : List Char) => !l.isEmpty && !sectionKeyword l)).map String.mk)
  | _, _ => none

/-- Modelled from claim C3: when the instructions header is missing, the
ingredients section "is still extracted, its content running to the end of
the document" (with the source's own cleanup). -/
def specIngredientsToEnd (recipe : String) : List String :=
  let lines := recipeLines recipe
  match findSection "ingredient" lines with
  | some i =>
    (((extractSection lines (i + 1) lines.length).map cleanBulletLine).filter
      (fun (l : List Char) => !l.isEmpty && !sectionKeyword l)).map String.mk
  | none => []

/-- Modelled from claim C2: a single simultaneous pass in which each numeric
token of the original line (fraction, else decimal, else integer, at each
position) is replaced by `renderQ (value * f)` exactly once. -/
def scaleOnceAux (f : ℚ) : Nat → List Char → List Char
  | 0, l => l
  | _ + 1, [] => []
  | fuel + 1, c :: cs =>
    if c.isDigit then
      match (c :: cs).dropWhile Char.isDigit with
      | x :: r2 =>
        if x = '/' && !(r2.takeWhile Char.isDigit).isEmpty then
          renderQ (((parseDigits ((c :: cs).takeWhile Char.isDigit) : ℚ) /
              (parseDigits (r2.takeWhile Char.isDigit) : ℚ)) * f) ++
            scaleOnceAux f fuel (r2.dropWhile Char.isDigit)
        else if x = '.' && !(r2.takeWhile Char.isDigit).isEmpty then
          renderQ (((parseDigits ((c :: cs).takeWhile Char.isDigit) : ℚ) +
              (parseDigits (r2.takeWhile Char.isDigit) : ℚ) /
                (10 : ℚ) ^ (r2.takeWhile Char.isDigit).length) * f) ++
            scaleOnceAux f fuel (r2.dropWhile Char.isDigit)
        else
          renderQ ((parseDigits ((c :: cs).takeWhile Char.isDigit) : ℚ) * f) ++
            scaleOnceAux f fuel ((c :: cs).dropWhile Char.isDigit)
      | [] =>
        renderQ ((parseDigits ((c :: cs).takeWhile Char.isDigit) : ℚ) * f) ++
          scaleOnceAux f fuel ((c :: cs).dropWhile Char.isDigit)
    else c :: scaleOnceAux f fuel cs

/-- Modelled from claim C2: scaling with every original token replaced
exactly once. -/
def specScaleOnce (s : String) (f : ℚ) : String :=
  String.mk (scaleOnceAux f s.data.length s.data)

/-- A numeric token at the very start of the text, per claim C5's "leading
numeric quantity". -/
def leadingNum (l : List Char) : Option ℚ :=
  match l with
  | c :: _ => if c.isDigit then firstNumTok l else none
  | [] => none

/-- Modelled from claim C5: per-ingredient contribution using the *leading*
numeric quantity (defaulting to 1 when absent), goat cheese instead using a
gram quantity divided by 30. -/
def specIngredientCaloriesC5 (ing : String) : ℚ :=
  match calorieTable.find? (fun e => hasSub (lowerList ing.data) e.1) with
  | some e =>
    if e.1 = "goat cheese".data then
      match firstGrams ing.data with
      | some g => e.2 * ((g : ℚ) / 30)
      | none => e.2 * 1
    else
      e.2 * (match leadingNum ing.data with
        | some v => v
        | none => 1)
  | none => 0

/-- Modelled from claim C5: the claimed estimate, summed over all
ingredients. -/
def specEstimateC5 (ings : List String) : ℚ :=
  (ings.map specIngredientCaloriesC5).sum

/-- Modelled from claim C4: prep + cook when both are present with a
positive sum; otherwise the explicit total-time field exactly when it is
non-empty and not `required:`; unknown (empty) otherwise. -/
def specTotalTimeC4 (nutrition : String) (explicitTotal : String) : String :=
  let p := (scanTimes nutrition).1
  let c := (scanTimes nutrition).2.1
  if p ≠ [] ∧ c ≠ [] ∧
      parseTimeToMinutes p + parseTimeToMinutes c > 0 then
    String.mk (formatTimeFromMinutes (parseTimeToMinutes p + parseTimeToMinutes c))
  else if explicitTotal ≠ "" ∧
      String.mk (lowerList explicitTotal.data) ≠ "required:" then
    String.mk (stripMarkdown explicitTotal.data)
  else ""


/-- The head of `l` is not the character `a` (or `l` is empty). -/
def headIsNot (a : Char) : List Char → Bool
  | [] => true
  | c :: _ => !(c == a)

/-- Tags for the three nutrition-line pattern classes of the sub-parser. -/
inductive NutTag where
  | note
  | cal
  | fact
deriving DecidableEq

/-- Modelled from the spec (§4.4 / claim C7): the priority-ordered pattern
list, first match wins. -/
def specNutPatterns : List ((List Char → Bool) × NutTag) :=
  [(noteLine, NutTag.note), (caloriesLine, NutTag.cal),
   (factLabelLine, NutTag.fact)]

/-- Classification of a cleaned nutrition line by the first matching
pattern. -/
def specNutClassify (clean : List Char) : Option NutTag :=
  (specNutPatterns.find? (fun e => e.1 clean)).map (fun e => e.2)

/-! ### Canonical ingredient lines (for the scaling-identity claim) -/

/-- A separator character for the numeric-token grammar: anything that can
extend or glue numeric tokens (digits, `.`, `/`) is excluded. -/
def isSepChar (c : Char) : Bool := !c.isDigit && !(c == '.') && !(c == '/')

/-- A list that may legally follow a numeric token: empty, or starting with
a separator character. -/
def headSep (l : List Char) : Bool :=
  match l with
  | [] => true
  | c :: _ => isSepChar c

/-- The numeric tokens that `renderQ` can produce and that scaling by 1
sends to themselves. -/
inductive CanonTok where
  | int (n : Nat)
  | dec (a b : Nat)
  | q14
  | q12
  | q34

/-- Rendering of a canonical token. -/
def renderTok : CanonTok → List Char
  | .int n => renderNat n
  | .dec a b => renderNat a ++ '.' :: [digitChar b]
  | .q14 => ['1', '/', '4']
  | .q12 => ['1', '/', '2']
  | .q34 => ['3', '/', '4']

/-- Side conditions making a token canonical: a decimal must have a single
non-zero decimal digit and must not be `0.5` (which the `commonFractions`
table rewrites to `1/2`). -/
def tokGood : CanonTok → Prop
  | .dec a b => 1 ≤ b ∧ b ≤ 9 ∧ ¬(a = 0 ∧ b = 5)
  | _ => True

/-- Lines built from canonical numeric tokens separated by non-numeric
text. -/
inductive Canon : List Char → Prop where
  | nil : Canon []
  | sep {c : Char} {l : List Char} :
      isSepChar c = true → Canon l → Canon (c :: l)
  | tok {t : CanonTok} {l : List Char} :
      tokGood t → headSep l = true → Canon l → Canon (renderTok t ++ l)

/-! ### Lemmas: decimal numerals -/

theorem digitChar_isDigit {d : Nat} (h : d < 10) :
    (digitChar d).isDigit = true := by
  interval_cases d <;> decide

theorem digitChar_toNat {d : Nat} (h : d < 10) :
    (digitChar d).toNat - 48 = d := by
  interval_cases d <;> decide

theorem renderNatAux_digits :
    ∀ fuel n, n < fuel → ∀ c ∈ renderNatAux fuel n, c.isDigit = true := by
  intro fuel
  induction fuel with
  | zero => intro n h; omega
  | succ fuel ih =>
    intro n _ c hc
    rw [renderNatAux] at hc
    by_cases h10 : n < 10
    · simp only [h10, if_true, List.mem_singleton] at hc
      subst hc
      exact digitChar_isDigit h10
    · simp only [h10, if_false, List.mem_append, List.mem_singleton] at hc
      have hdiv : n / 10 < n := Nat.div_lt_self (by omega) (by omega)
      rcases hc with hc | hc
      · exact ih (n / 10) (by omega) c hc
      · subst hc
        exact digitChar_isDigit (Nat.mod_lt _ (by omega))

theorem renderNat_digits (n : Nat) : ∀ c ∈ renderNat n, c.isDigit = true :=
  renderNatAux_digits (n + 1) n (Nat.lt_succ_self n)

theorem renderNat_ne_nil (n : Nat) : renderNat n ≠ [] := by
  rw [renderNat, renderNatAux]
  by_cases h10 : n < 10 <;> simp [h10]

theorem parseDigits_from (a : Nat) (l : List Char) :
    l.foldl (fun a c => 10 * a + (c.toNat - 48)) a =
      a * 10 ^ l.length + parseDigits l := by
  induction l generalizing a with
  | nil => simp [parseDigits]
  | cons c t ih =>
    simp only [List.foldl_cons, parseDigits, List.length_cons]
    rw [ih, ih (10 * 0 + (c.toNat - 48))]
    ring

theorem parseDigits_append (l1 l2 : List Char) :
    parseDigits (l1 ++ l2) =
      parseDigits l1 * 10 ^ l2.length + parseDigits l2 := by
  unfold parseDigits
  rw [List.foldl_append, parseDigits_from]
  rfl

theorem parseDigits_renderNatAux :
    ∀ fuel n, n < fuel → parseDigits (renderNatAux fuel n) = n := by
  intro fuel
  induction fuel with
  | zero => intro n h; omega
  | succ fuel ih =>
    intro n _
    rw [renderNatAux]
    by_cases h10 : n < 10
    · simp only [h10, if_true]
      simpa [parseDigits] using digitChar_toNat h10
    · simp only [h10, if_false]
      have hdiv : n / 10 < n := Nat.div_lt_self (by omega) (by omega)
      rw [parseDigits_append, ih (n / 10) (by omega)]
      have hm : (digitChar (n % 10)).toNat - 48 = n % 10 :=
        digitChar_toNat (Nat.mod_lt _ (by omega))
      simp [parseDigits, hm]
      omega

theorem parseDigits_renderNat (n : Nat) : parseDigits (renderNat n) = n :=
  parseDigits_renderNatAux (n + 1) n (Nat.lt_succ_self n)

theorem parseDigits_single {d : Nat} (h : d < 10) :
    parseDigits [digitChar d] = d := by
  simpa [parseDigits] using digitChar_toNat h

theorem renderInt_natCast (n : Nat) : renderInt (n : ℤ) = renderNat n := by
  rw [renderInt, if_neg (by omega)]
  simp

/-! ### Lemmas: scanning over a token boundary -/

theorem takeWhile_run {p : Char → Bool} {ds rest : List Char}
    (hds : ∀ c ∈ ds, p c = true) (hr : rest.takeWhile p = []) :
    (ds ++ rest).takeWhile p = ds := by
  rw [List.takeWhile_append_of_pos hds, hr, List.append_nil]

theorem dropWhile_run {p : Char → Bool} {ds rest : List Char}
    (hds : ∀ c ∈ ds, p c = true) (hr : rest.takeWhile p = []) :
    (ds ++ rest).dropWhile p = rest := by
  rw [List.dropWhile_append_of_pos hds]
  have h := List.takeWhile_append_dropWhile p rest
  rw [hr] at h
  simpa using h

theorem takeWhile_nil_of_headSep {l : List Char} (h : headSep l = true) :
    l.takeWhile Char.isDigit = [] := by
  cases l with
  | nil => rfl
  | cons c t =>
    simp only [headSep, isSepChar, Bool.and_eq_true, Bool.not_eq_true'] at h
    simp [List.takeWhile_cons, h.1.1]

theorem length_dropWhile_le (p : Char → Bool) (l : List Char) :
    (l.dropWhile p).length ≤ l.length := by
  induction l with
  | nil => simp
  | cons c t ih =>
    rw [List.dropWhile_cons]
    by_cases h : p c
    · simp only [h, if_true]
      exact Nat.le_trans ih (by simp)
    · simp [h]

/-! ### Lemmas: fuel irrelevance of the scanning passes -/

theorem fracPassAux_fuel (f : ℚ) :
    ∀ n m (l : List Char), l.length ≤ n → l.length ≤ m →
      fracPassAux f n l = fracPassAux f m l := by
  intro n
  induction n with
  | zero =>
    intro m l hn _
    have : l = [] := by cases l <;> simp_all
    subst this
    cases m <;> rfl
  | succ n ih =>
    intro m l hn hm
    cases m with
    | zero =>
      have : l = [] := by cases l <;> simp_all
      subst this
      rfl
    | succ m =>
      cases l with
      | nil => rfl
      | cons c cs =>
        have hcs_n : cs.length ≤ n := by simpa using hn
        have hcs_m : cs.length ≤ m := by simpa using hm
        rw [fracPassAux, fracPassAux]
        by_cases hd : c.isDigit
        · simp only [hd, if_true]
          cases hsp : (c :: cs).dropWhile Char.isDigit with
          | nil => rw [ih m cs hcs_n hcs_m]
          | cons x r2 =>
            have hr2 : r2.length ≤ cs.length := by
              have h1 := length_dropWhile_le Char.isDigit (c :: cs)
              rw [hsp] at h1
              simpa using h1
            by_cases hx : x = '/'
            · simp only [hx, if_true]
              by_cases hemp : (r2.takeWhile Char.isDigit).isEmpty
              · simp only [hemp, if_true]
                rw [ih m cs hcs_n hcs_m]
              · simp only [hemp, Bool.false_eq_true, if_false]
                have h3 : (r2.dropWhile Char.isDigit).length ≤ cs.length :=
                  Nat.le_trans (length_dropWhile_le _ _) hr2
                rw [ih m _ (Nat.le_trans h3 hcs_n) (Nat.le_trans h3 hcs_m)]
            · simp only [hx, if_false]
              rw [ih m cs hcs_n hcs_m]
        · simp only [hd, Bool.false_eq_true, if_false]
          rw [ih m cs hcs_n hcs_m]

theorem decPassAux_fuel (f : ℚ) :
    ∀ n m (l : List Char), l.length ≤ n → l.length ≤ m →
      decPassAux f n l = decPassAux f m l := by
  intro n
  induction n with
  | zero =>
    intro m l hn _
    have : l = [] := by cases l <;> simp_all
    subst this
    cases m <;> rfl
  | succ n ih =>
    intro m l hn hm
    cases m with
    | zero =>
      have : l = [] := by cases l <;> simp_all
      subst this
      rfl
    | succ m =>
      cases l with
      | nil => rfl
      | cons c cs =>
        have hcs_n : cs.length ≤ n := by simpa using hn
        have hcs_m : cs.length ≤ m := by simpa using hm
        rw [decPassAux, decPassAux]
        by_cases hd : c.isDigit
        · simp only [hd, if_true]
          cases hsp : (c :: cs).dropWhile Char.isDigit with
          | nil => rw [ih m cs hcs_n hcs_m]
          | cons x r2 =>
            have hr2 : r2.length ≤ cs.length := by
              have h1 := length_dropWhile_le Char.isDigit (c :: cs)
              rw [hsp] at h1
              simpa using h1
            by_cases hx : x = '.'
            · simp only [hx, if_true]
              by_cases hemp : (r2.takeWhile Char.isDigit).isEmpty
              · simp only [hemp, if_true]
                rw [ih m cs hcs_n hcs_m]
              · simp only [hemp, Bool.false_eq_true, if_false]
                have h3 : (r2.dropWhile Char.isDigit).length ≤ cs.length :=
                  Nat.le_trans (length_dropWhile_le _ _) hr2
                rw [ih m _ (Nat.le_trans h3 hcs_n) (Nat.le_trans h3 hcs_m)]
            · simp only [hx, if_false]
              rw [ih m cs hcs_n hcs_m]
        · simp only [hd, Bool.false_eq_true, if_false]
          rw [ih m cs hcs_n hcs_m]

theorem intPassAux_fuel (f : ℚ) :
    ∀ n m (l : List Char), l.length ≤ n → l.length ≤ m →
      intPassAux f n l = intPassAux f m l := by
  intro n
  induction n with
  | zero =>
    intro m l hn _
    have : l = [] := by cases l <;> simp_all
    subst this
    cases m <;> rfl
  | succ n ih =>
    intro m l hn hm
    cases m with
    | zero =>
      have : l = [] := by cases l <;> simp_all
      subst this
      rfl
    | succ m =>
      cases l with
      | nil => rfl
      | cons c cs =>
        have hcs_n : cs.length ≤ n := by simpa using hn
        have hcs_m : cs.length ≤ m := by simpa using hm
        rw [intPassAux, intPassAux]
        by_cases hd : c.isDigit
        · simp only [hd, if_true]
          have h3 : ((c :: cs).dropWhile Char.isDigit).length ≤ cs.length := by
            have h1 := length_dropWhile_le Char.isDigit cs
            rw [List.dropWhile_cons, if_pos hd]
            exact h1
          rw [ih m _ (Nat.le_trans h3 hcs_n) (Nat.le_trans h3 hcs_m)]
        · simp only [hd, Bool.false_eq_true, if_false]
          rw [ih m cs hcs_n hcs_m]

/-! ### Lemmas: behavior of the three passes -/

theorem fracPass_skip (f : ℚ) {c : Char} (l : List Char)
    (h : c.isDigit = false) : fracPass f (c :: l) = c :: fracPass f l := by
  rw [fracPass, fracPass]
  simp only [List.length_cons, fracPassAux, h, Bool.false_eq_true, if_false]

theorem decPass_skip (f : ℚ) {c : Char} (l : List Char)
    (h : c.isDigit = false) : decPass f (c :: l) = c :: decPass f l := by
  rw [decPass, decPass]
  simp only [List.length_cons, decPassAux, h, Bool.false_eq_true, if_false]

theorem intPass_skip (f : ℚ) {c : Char} (l : List Char)
    (h : c.isDigit = false) : intPass f (c :: l) = c :: intPass f l := by
  rw [intPass, intPass]
  simp only [List.length_cons, intPassAux, h, Bool.false_eq_true, if_false]

theorem fracPass_run (f : ℚ) {ds rest : List Char}
    (hds : ∀ c ∈ ds, c.isDigit = true)
    (hr : rest.takeWhile Char.isDigit = [])
    (hsl : headIsNot '/' rest = true) :
    fracPass f (ds ++ rest) = ds ++ fracPass f rest := by
  induction ds with
  | nil => simp
  | cons d ds ih =>
    have hd : d.isDigit = true := hds d (by simp)
    have hds' : ∀ c ∈ ds, c.isDigit = true := fun c hc => hds c (by simp [hc])
    have hdrop : (d :: (ds ++ rest)).dropWhile Char.isDigit = rest := by
      have := @dropWhile_run Char.isDigit (d :: ds) rest hds hr
      simpa using this
    rw [List.cons_append, fracPass]
    simp only [List.length_cons, fracPassAux, hd, if_true, hdrop]
    cases rest with
    | nil =>
      simp only []
      rw [show fracPassAux f (ds ++ ([] : List Char)).length (ds ++ []) =
        fracPass f (ds ++ []) from rfl, ih hds']
      rfl
    | cons x r2 =>
      have hx : (x = '/') = False := by
        simp only [headIsNot] at hsl
        simp only [eq_iff_iff, iff_false]
        intro hxx
        subst hxx
        simp at hsl
      simp only [hx, if_false]
      rw [show fracPassAux f (ds ++ x :: r2).length (ds ++ x :: r2) =
        fracPass f (ds ++ x :: r2) from rfl, ih hds']
      rfl

theorem fracPass_match (f : ℚ) {d1 d2 rest : List Char}
    (h1 : d1 ≠ []) (hd1 : ∀ c ∈ d1, c.isDigit = true)
    (h2 : d2 ≠ []) (hd2 : ∀ c ∈ d2, c.isDigit = true)
    (hr : rest.takeWhile Char.isDigit = []) :
    fracPass f (d1 ++ ('/' :: (d2 ++ rest))) =
      renderQ ((parseDigits d1 : ℚ) / (parseDigits d2 : ℚ) * f) ++
        fracPass f rest := by
  obtain ⟨c, d1', rfl⟩ : ∃ c d1', d1 = c :: d1' := by
    cases d1 with
    | nil => exact absurd rfl h1
    | cons c d1' => exact ⟨c, d1', rfl⟩
  have hc : c.isDigit = true := hd1 c (by simp)
  have htake : ((c :: d1') ++ ('/' :: (d2 ++ rest))).takeWhile Char.isDigit =
      c :: d1' := by
    refine takeWhile_run hd1 ?_
    simp [List.takeWhile_cons]
  have hdrop : ((c :: d1') ++ ('/' :: (d2 ++ rest))).dropWhile Char.isDigit =
      '/' :: (d2 ++ rest) := by
    refine dropWhile_run hd1 ?_
    simp [List.takeWhile_cons]
  have htake2 : (d2 ++ rest).takeWhile Char.isDigit = d2 := takeWhile_run hd2 hr
  have hdrop2 : (d2 ++ rest).dropWhile Char.isDigit = rest := dropWhile_run hd2 hr
  have hne2 : ¬((d2 ++ rest).takeWhile Char.isDigit).isEmpty = true := by
    rw [htake2]
    simpa using h2
  rw [List.cons_append, fracPass]
  rw [show (c :: d1') ++ ('/' :: (d2 ++ rest)) =
    c :: (d1' ++ ('/' :: (d2 ++ rest))) from rfl] at hdrop htake
  simp only [List.length_cons, fracPassAux, hc, if_true, hdrop, htake, htake2,
    hdrop2, hne2, Bool.false_eq_true, if_false, if_true]
  have hfl : rest.length ≤ (d1' ++ ('/' :: (d2 ++ rest))).length := by
    simp [List.length_append]
    omega
  rw [fracPassAux_fuel f _ rest.length rest hfl (Nat.le_refl _),
    if_neg (by simpa using h2)]
  rfl

theorem decPass_run (f : ℚ) {ds rest : List Char}
    (hds : ∀ c ∈ ds, c.isDigit = true)
    (hr : rest.takeWhile Char.isDigit = [])
    (hsl : headIsNot '.' rest = true) :
    decPass f (ds ++ rest) = ds ++ decPass f rest := by
  induction ds with
  | nil => simp
  | cons d ds ih =>
    have hd : d.isDigit = true := hds d (by simp)
    have hds' : ∀ c ∈ ds, c.isDigit = true := fun c hc => hds c (by simp [hc])
    have hdrop : (d :: (ds ++ rest)).dropWhile Char.isDigit = rest := by
      have := @dropWhile_run Char.isDigit (d :: ds) rest hds hr
      simpa using this
    rw [List.cons_append, decPass]
    simp only [List.length_cons, decPassAux, hd, if_true, hdrop]
    cases rest with
    | nil =>
      simp only []
      rw [show decPassAux f (ds ++ ([] : List Char)).length (ds ++ []) =
        decPass f (ds ++ []) from rfl, ih hds']
      rfl
    | cons x r2 =>
      have hx : (x = '.') = False := by
        simp only [headIsNot] at hsl
        simp only [eq_iff_iff, iff_false]
        intro hxx
        subst hxx
        simp at hsl
      simp only [hx, if_false]
      rw [show decPassAux f (ds ++ x :: r2).length (ds ++ x :: r2) =
        decPass f (ds ++ x :: r2) from rfl, ih hds']
      rfl

theorem decPass_match (f : ℚ) {d1 d2 rest : List Char}
    (h1 : d1 ≠ []) (hd1 : ∀ c ∈ d1, c.isDigit = true)
    (h2 : d2 ≠ []) (hd2 : ∀ c ∈ d2, c.isDigit = true)
    (hr : rest.takeWhile Char.isDigit = []) :
    decPass f (d1 ++ ('.' :: (d2 ++ rest))) =
      renderQ (((parseDigits d1 : ℚ) +
          (parseDigits d2 : ℚ) / (10 : ℚ) ^ d2.length) * f) ++
        decPass f rest := by
  obtain ⟨c, d1', rfl⟩ : ∃ c d1', d1 = c :: d1' := by
    cases d1 with
    | nil => exact absurd rfl h1
    | cons c d1' => exact ⟨c, d1', rfl⟩
  have hc : c.isDigit = true := hd1 c (by simp)
  have htake : ((c :: d1') ++ ('.' :: (d2 ++ rest))).takeWhile Char.isDigit =
      c :: d1' := by
    refine takeWhile_run hd1 ?_
    simp [List.takeWhile_cons]
  have hdrop : ((c :: d1') ++ ('.' :: (d2 ++ rest))).dropWhile Char.isDigit =
      '.' :: (d2 ++ rest) := by
    refine dropWhile_run hd1 ?_
    simp [List.takeWhile_cons]
  have htake2 : (d2 ++ rest).takeWhile Char.isDigit = d2 := takeWhile_run hd2 hr
  have hdrop2 : (d2 ++ rest).dropWhile Char.isDigit = rest := dropWhile_run hd2 hr
  have hne2 : ¬((d2 ++ rest).takeWhile Char.isDigit).isEmpty = true := by
    rw [htake2]
    simpa using h2
  rw [List.cons_append, decPass]
  rw [show (c :: d1') ++ ('.' :: (d2 ++ rest)) =
    c :: (d1' ++ ('.' :: (d2 ++ rest))) from rfl] at hdrop htake
  simp only [List.length_cons, decPassAux, hc, if_true, hdrop, htake, htake2,
    hdrop2, hne2, Bool.false_eq_true, if_false, if_true]
  have hfl : rest.length ≤ (d1' ++ ('.' :: (d2 ++ rest))).length := by
    simp [List.length_append]
    omega
  rw [decPassAux_fuel f _ rest.length rest hfl (Nat.le_refl _),
    if_neg (by simpa using h2)]
  rfl

theorem intPass_match (f : ℚ) {ds rest : List Char}
    (h1 : ds ≠ []) (hds : ∀ c ∈ ds, c.isDigit = true)
    (hr : rest.takeWhile Char.isDigit = []) :
    intPass f (ds ++ rest) =
      renderQ ((parseDigits ds : ℚ) * f) ++ intPass f rest := by
  obtain ⟨c, ds', rfl⟩ : ∃ c ds', ds = c :: ds' := by
    cases ds with
    | nil => exact absurd rfl h1
    | cons c ds' => exact ⟨c, ds', rfl⟩
  have hc : c.isDigit = true := hds c (by simp)
  have htake : ((c :: ds') ++ rest).takeWhile Char.isDigit = c :: ds' :=
    takeWhile_run hds hr
  have hdrop : ((c :: ds') ++ rest).dropWhile Char.isDigit = rest :=
    dropWhile_run hds hr
  rw [List.cons_append, intPass]
  rw [show (c :: ds') ++ rest = c :: (ds' ++ rest) from rfl] at hdrop htake
  simp only [List.length_cons, intPassAux, hc, if_true, hdrop, htake]
  have hfl : rest.length ≤ (ds' ++ rest).length := by
    simp [List.length_append]
  rw [intPassAux_fuel f _ rest.length rest hfl (Nat.le_refl _)]
  rfl

/-! ### Lemmas: values of `renderQ` -/

theorem renderNat_small {b : Nat} (h : b < 10) : renderNat b = [digitChar b] := by
  rw [renderNat, renderNatAux, if_pos h]

theorem renderQ_natCast (n : Nat) : renderQ ((n : ℚ)) = renderNat n := by
  rw [renderQ, if_pos (Rat.den_natCast n)]
  rw [show ((n : ℚ)).num = (n : ℤ) from Rat.num_natCast n]
  exact renderInt_natCast n

theorem toFixed1_dec (a : Nat) {b : Nat} (hb9 : b ≤ 9) :
    toFixed1 ((a : ℚ) + (b : ℚ) / 10) =
      renderNat a ++ '.' :: [digitChar b] := by
  have hnn : (0 : ℚ) ≤ (a : ℚ) + (b : ℚ) / 10 := by positivity
  have habs : |(a : ℚ) + (b : ℚ) / 10| = (a : ℚ) + (b : ℚ) / 10 :=
    abs_of_nonneg hnn
  have hval : ((a : ℚ) + (b : ℚ) / 10) * 10 + 1 / 2 =
      ((10 * a + b : ℕ) : ℚ) + 1 / 2 := by
    push_cast
    ring
  have hfloor : ⌊((10 * a + b : ℕ) : ℚ) + 1 / 2⌋ = (10 * a + b : ℕ) := by
    rw [add_comm, Int.floor_add_nat]
    norm_num
  simp only [toFixed1, habs, hval, hfloor]
  rw [if_neg (not_lt.mpr hnn)]
  have hdiv : (10 * a + b) / 10 = a := by omega
  have hmod : (10 * a + b) % 10 = b := by omega
  rw [Int.toNat_natCast, hdiv, hmod]

theorem renderQ_dec {a b : Nat} (hb1 : 1 ≤ b) (hb9 : b ≤ 9)
    (h5 : ¬(a = 0 ∧ b = 5)) :
    renderQ ((a : ℚ) + (b : ℚ) / 10) =
      renderNat a ++ '.' :: [digitChar b] := by
  have hden : ¬(((a : ℚ) + (b : ℚ) / 10).den = 1) := by
    intro h
    rw [Rat.den_eq_one_iff] at h
    have h10 : (10 * ((a : ℚ) + (b : ℚ) / 10).num : ℚ) = 10 * a + b := by
      linear_combination 10 * h
    have hz : 10 * ((a : ℚ) + (b : ℚ) / 10).num = 10 * (a : ℤ) + (b : ℤ) := by
      exact_mod_cast h10
    omega
  have key : ∀ k : ℕ, ((a : ℚ) + (b : ℚ) / 10 = (k : ℚ) / 100) →
      100 * a + 10 * b = k := by
    intro k h
    have h100 : ((100 * a + 10 * b : ℕ) : ℚ) = (k : ℚ) := by
      push_cast
      linear_combination 100 * h
    exact_mod_cast h100
  have h14 : ¬((a : ℚ) + (b : ℚ) / 10 = 1 / 4) := by
    intro h
    have := key 25 (by rw [h]; norm_num)
    omega
  have h13 : ¬((a : ℚ) + (b : ℚ) / 10 = 33 / 100) := by
    intro h
    have := key 33 (by rw [h]; norm_num)
    omega
  have h12 : ¬((a : ℚ) + (b : ℚ) / 10 = 1 / 2) := by
    intro h
    have h50 := key 50 (by rw [h]; norm_num)
    exact h5 ⟨by omega, by omega⟩
  have h23 : ¬((a : ℚ) + (b : ℚ) / 10 = 67 / 100) := by
    intro h
    have := key 67 (by rw [h]; norm_num)
    omega
  have h34 : ¬((a : ℚ) + (b : ℚ) / 10 = 3 / 4) := by
    intro h
    have := key 75 (by rw [h]; norm_num)
    omega
  rw [renderQ, if_neg hden, if_neg h14, if_neg h13, if_neg h12, if_neg h23,
    if_neg h34]
  exact toFixed1_dec a hb9

/-! ### Lemmas: scaling by 1 fixes canonical lines -/

theorem isSepChar_not_digit {c : Char} (h : isSepChar c = true) :
    c.isDigit = false := by
  simp only [isSepChar, Bool.and_eq_true, Bool.not_eq_true'] at h
  exact h.1.1

theorem headSep_not_slash {l : List Char} (h : headSep l = true) :
    headIsNot '/' l = true := by
  cases l with
  | nil => rfl
  | cons c t =>
    simp only [headSep, isSepChar, Bool.and_eq_true, Bool.not_eq_true'] at h
    simp only [headIsNot, Bool.not_eq_true']
    simpa using h.2

theorem headSep_not_dot {l : List Char} (h : headSep l = true) :
    headIsNot '.' l = true := by
  cases l with
  | nil => rfl
  | cons c t =>
    simp only [headSep, isSepChar, Bool.and_eq_true, Bool.not_eq_true'] at h
    simp only [headIsNot, Bool.not_eq_true']
    simpa using h.1.2

theorem digitChar_digits {b : Nat} (hb9 : b ≤ 9) :
    ∀ c ∈ [digitChar b], c.isDigit = true := by
  intro c hc
  rw [List.mem_singleton] at hc
  subst hc
  exact digitChar_isDigit (by omega)

theorem renderQ_quarter :
    renderQ ((parseDigits ['1'] : ℚ) / (parseDigits ['4'] : ℚ) * 1) =
      ['1', '/', '4'] := by
  with_unfolding_all decide

theorem renderQ_half :
    renderQ ((parseDigits ['1'] : ℚ) / (parseDigits ['2'] : ℚ) * 1) =
      ['1', '/', '2'] := by
  with_unfolding_all decide

theorem renderQ_threequarter :
    renderQ ((parseDigits ['3'] : ℚ) / (parseDigits ['4'] : ℚ) * 1) =
      ['3', '/', '4'] := by
  with_unfolding_all decide

theorem fracPass_dec_tok (a : Nat) {b : Nat} (l' : List Char) (hb9 : b ≤ 9)
    (hs : headSep l' = true) (hfp : fracPass 1 l' = l') :
    fracPass 1 ((renderNat a ++ '.' :: [digitChar b]) ++ l') =
      (renderNat a ++ '.' :: [digitChar b]) ++ l' := by
  have h1 : (renderNat a ++ '.' :: [digitChar b]) ++ l' =
      renderNat a ++ ('.' :: ([digitChar b] ++ l')) := by
    simp [List.append_assoc]
  rw [h1]
  rw [@fracPass_run 1 (renderNat a) ('.' :: ([digitChar b] ++ l'))
    (renderNat_digits a) rfl rfl]
  rw [fracPass_skip 1 _ (by decide)]
  rw [fracPass_run 1 (digitChar_digits hb9) (takeWhile_nil_of_headSep hs)
    (headSep_not_slash hs), hfp]

theorem fracPass_canon {l : List Char} (h : Canon l) : fracPass 1 l = l := by
  induction h with
  | nil => rfl
  | sep hc _ ih =>
    rw [fracPass_skip 1 _ (isSepChar_not_digit hc), ih]
  | @tok t l' tg hs _ ih =>
    cases t with
    | int n =>
      rw [show renderTok (.int n) = renderNat n from rfl]
      rw [fracPass_run 1 (renderNat_digits n) (takeWhile_nil_of_headSep hs)
        (headSep_not_slash hs), ih]
    | dec a b =>
      obtain ⟨hb1, hb9, h5⟩ := tg
      exact fracPass_dec_tok a l' hb9 hs ih
    | q14 =>
      rw [show renderTok CanonTok.q14 ++ l' =
        ['1'] ++ ('/' :: (['4'] ++ l')) from rfl]
      rw [fracPass_match 1 (by decide) (by decide) (by decide) (by decide)
        (takeWhile_nil_of_headSep hs), renderQ_quarter, ih]
      rfl
    | q12 =>
      rw [show renderTok CanonTok.q12 ++ l' =
        ['1'] ++ ('/' :: (['2'] ++ l')) from rfl]
      rw [fracPass_match 1 (by decide) (by decide) (by decide) (by decide)
        (takeWhile_nil_of_headSep hs), renderQ_half, ih]
      rfl
    | q34 =>
      rw [show renderTok CanonTok.q34 ++ l' =
        ['3'] ++ ('/' :: (['4'] ++ l')) from rfl]
      rw [fracPass_match 1 (by decide) (by decide) (by decide) (by decide)
        (takeWhile_nil_of_headSep hs), renderQ_threequarter, ih]
      rfl

theorem decPass_dec_tok (a : Nat) {b : Nat} (l' : List Char) (hb1 : 1 ≤ b)
    (hb9 : b ≤ 9) (h5 : ¬(a = 0 ∧ b = 5)) (hs : headSep l' = true)
    (hfp : decPass 1 l' = l') :
    decPass 1 ((renderNat a ++ '.' :: [digitChar b]) ++ l') =
      (renderNat a ++ '.' :: [digitChar b]) ++ l' := by
  have h1 : (renderNat a ++ '.' :: [digitChar b]) ++ l' =
      renderNat a ++ ('.' :: ([digitChar b] ++ l')) := by
    simp [List.append_assoc]
  rw [h1]
  rw [decPass_match 1 (renderNat_ne_nil a) (renderNat_digits a)
    (by simp) (digitChar_digits hb9) (takeWhile_nil_of_headSep hs)]
  rw [parseDigits_renderNat, parseDigits_single (by omega),
    List.length_singleton, pow_one, mul_one, renderQ_dec hb1 hb9 h5, hfp]
  simp [List.append_assoc]

theorem decPass_canon {l : List Char} (h : Canon l) : decPass 1 l = l := by
  induction h with
  | nil => rfl
  | sep hc _ ih =>
    rw [decPass_skip 1 _ (isSepChar_not_digit hc), ih]
  | @tok t l' tg hs _ ih =>
    cases t with
    | int n =>
      rw [show renderTok (.int n) = renderNat n from rfl]
      rw [decPass_run 1 (renderNat_digits n) (takeWhile_nil_of_headSep hs)
        (headSep_not_dot hs), ih]
    | dec a b =>
      obtain ⟨hb1, hb9, h5⟩ := tg
      exact decPass_dec_tok a l' hb1 hb9 h5 hs ih
    | q14 =>
      rw [show renderTok CanonTok.q14 ++ l' =
        ['1'] ++ ('/' :: (['4'] ++ l')) from rfl]
      rw [@decPass_run 1 ['1'] ('/' :: (['4'] ++ l')) (by decide) rfl rfl]
      rw [decPass_skip 1 _ (by decide)]
      rw [@decPass_run 1 ['4'] l' (by decide)
        (takeWhile_nil_of_headSep hs) (headSep_not_dot hs), ih]
    | q12 =>
      rw [show renderTok CanonTok.q12 ++ l' =
        ['1'] ++ ('/' :: (['2'] ++ l')) from rfl]
      rw [@decPass_run 1 ['1'] ('/' :: (['2'] ++ l')) (by decide) rfl rfl]
      rw [decPass_skip 1 _ (by decide)]
      rw [@decPass_run 1 ['2'] l' (by decide)
        (takeWhile_nil_of_headSep hs) (headSep_not_dot hs), ih]
    | q34 =>
      rw [show renderTok CanonTok.q34 ++ l' =
        ['3'] ++ ('/' :: (['4'] ++ l')) from rfl]
      rw [@decPass_run 1 ['3'] ('/' :: (['4'] ++ l')) (by decide) rfl rfl]
      rw [decPass_skip 1 _ (by decide)]
      rw [@decPass_run 1 ['4'] l' (by decide)
        (takeWhile_nil_of_headSep hs) (headSep_not_dot hs), ih]

theorem renderQ_parseSingle {b : Nat} (hb : b < 10) :
    renderQ ((parseDigits [digitChar b] : ℚ) * 1) = [digitChar b] := by
  rw [parseDigits_single hb, mul_one, renderQ_natCast, renderNat_small hb]

theorem intPass_dec_tok (a : Nat) {b : Nat} (l' : List Char) (hb9 : b ≤ 9)
    (hs : headSep l' = true) (hfp : intPass 1 l' = l') :
    intPass 1 ((renderNat a ++ '.' :: [digitChar b]) ++ l') =
      (renderNat a ++ '.' :: [digitChar b]) ++ l' := by
  have h1 : (renderNat a ++ '.' :: [digitChar b]) ++ l' =
      renderNat a ++ ('.' :: ([digitChar b] ++ l')) := by
    simp [List.append_assoc]
  rw [h1]
  rw [@intPass_match 1 (renderNat a) ('.' :: ([digitChar b] ++ l'))
    (renderNat_ne_nil a) (renderNat_digits a) rfl]
  rw [parseDigits_renderNat, mul_one, renderQ_natCast]
  rw [intPass_skip 1 _ (by decide)]
  rw [@intPass_match 1 [digitChar b] l' (by simp)
    (digitChar_digits hb9) (takeWhile_nil_of_headSep hs)]
  rw [renderQ_parseSingle (by omega), hfp]

theorem intPass_canon {l : List Char} (h : Canon l) : intPass 1 l = l := by
  induction h with
  | nil => rfl
  | sep hc _ ih =>
    rw [intPass_skip 1 _ (isSepChar_not_digit hc), ih]
  | @tok t l' tg hs _ ih =>
    cases t with
    | int n =>
      rw [show renderTok (.int n) = renderNat n from rfl]
      rw [intPass_match 1 (renderNat_ne_nil n) (renderNat_digits n)
        (takeWhile_nil_of_headSep hs)]
      rw [parseDigits_renderNat, mul_one, renderQ_natCast, ih]
    | dec a b =>
      obtain ⟨hb1, hb9, h5⟩ := tg
      exact intPass_dec_tok a l' hb9 hs ih
    | q14 =>
      rw [show renderTok CanonTok.q14 ++ l' =
        ['1'] ++ ('/' :: (['4'] ++ l')) from rfl]
      rw [@intPass_match 1 ['1'] ('/' :: (['4'] ++ l')) (by simp) (by decide)
        rfl]
      rw [show renderQ ((parseDigits ['1'] : ℚ) * 1) = ['1'] from by
        with_unfolding_all decide]
      rw [intPass_skip 1 _ (by decide)]
      rw [@intPass_match 1 ['4'] l' (by simp) (by decide)
        (takeWhile_nil_of_headSep hs)]
      rw [show renderQ ((parseDigits ['4'] : ℚ) * 1) = ['4'] from by
        with_unfolding_all decide]
      rw [ih]
    | q12 =>
      rw [show renderTok CanonTok.q12 ++ l' =
        ['1'] ++ ('/' :: (['2'] ++ l')) from rfl]
      rw [@intPass_match 1 ['1'] ('/' :: (['2'] ++ l')) (by simp) (by decide)
        rfl]
      rw [show renderQ ((parseDigits ['1'] : ℚ) * 1) = ['1'] from by
        with_unfolding_all decide]
      rw [intPass_skip 1 _ (by decide)]
      rw [@intPass_match 1 ['2'] l' (by simp) (by decide)
        (takeWhile_nil_of_headSep hs)]
      rw [show renderQ ((parseDigits ['2'] : ℚ) * 1) = ['2'] from by
        with_unfolding_all decide]
      rw [ih]
    | q34 =>
      rw [show renderTok CanonTok.q34 ++ l' =
        ['3'] ++ ('/' :: (['4'] ++ l')) from rfl]
      rw [@intPass_match 1 ['3'] ('/' :: (['4'] ++ l')) (by simp) (by decide)
        rfl]
      rw [show renderQ ((parseDigits ['3'] : ℚ) * 1) = ['3'] from by
        with_unfolding_all decide]
      rw [intPass_skip 1 _ (by decide)]
      rw [@intPass_match 1 ['4'] l' (by simp) (by decide)
        (takeWhile_nil_of_headSep hs)]
      rw [show renderQ ((parseDigits ['4'] : ℚ) * 1) = ['4'] from by
        with_unfolding_all decide]
      rw [ih]

/-! ### Lemmas: trimming is idempotent -/

theorem dropWhile_decomp (p : Char → Bool) (l : List Char) :
    l.takeWhile p ++ l.dropWhile p = l :=
  List.takeWhile_append_dropWhile p l

theorem takeWhile_dropWhile_nil (p : Char → Bool) (l : List Char) :
    (l.dropWhile p).takeWhile p = [] := by
  have h := List.head?_dropWhile_not p l
  cases hd : l.dropWhile p with
  | nil => rfl
  | cons c t =>
    rw [hd] at h
    simp only [List.head?_cons] at h
    simp [List.takeWhile_cons, h]

theorem dropWhile_of_takeWhile_nil {p : Char → Bool} {l : List Char}
    (h : l.takeWhile p = []) : l.dropWhile p = l := by
  cases l with
  | nil => rfl
  | cons c t =>
    rw [List.takeWhile_cons] at h
    by_cases hc : p c
    · simp [hc] at h
    · simp [List.dropWhile_cons, hc]

theorem mem_dropWhile {p : Char → Bool} {l : List Char} {a : Char}
    (h : a ∈ l.dropWhile p) : a ∈ l := by
  have := dropWhile_decomp p l
  rw [← this]
  exact List.mem_append_right _ h

theorem mem_trimBoth {l : List Char} {a : Char} (h : a ∈ trimBoth l) :
    a ∈ l := by
  rw [trimBoth] at h
  rw [List.mem_reverse] at h
  have h2 := mem_dropWhile h
  rw [List.mem_reverse] at h2
  exact mem_dropWhile h2

/-- `trimBoth l` is an initial segment of `l.dropWhile jsWs`. -/
theorem trimBoth_decomp (l : List Char) :
    ∃ r, trimBoth l ++ r = l.dropWhile jsWs := by
  refine ⟨((l.dropWhile jsWs).reverse.takeWhile jsWs).reverse, ?_⟩
  rw [trimBoth, ← List.reverse_append]
  rw [show (l.dropWhile jsWs).reverse.takeWhile jsWs ++
      (l.dropWhile jsWs).reverse.dropWhile jsWs = (l.dropWhile jsWs).reverse
    from dropWhile_decomp jsWs _]
  exact List.reverse_reverse _

theorem trimBoth_takeWhile_nil (l : List Char) :
    (trimBoth l).takeWhile jsWs = [] := by
  obtain ⟨r, hr⟩ := trimBoth_decomp l
  cases hB : trimBoth l with
  | nil => rfl
  | cons c t =>
    rw [hB] at hr
    have hz := takeWhile_dropWhile_nil jsWs l
    rw [← hr, List.cons_append, List.takeWhile_cons] at hz
    by_cases hc : jsWs c
    · simp [hc] at hz
    · simp [List.takeWhile_cons, hc]

theorem trimBoth_reverse_takeWhile_nil (l : List Char) :
    (trimBoth l).reverse.takeWhile jsWs = [] := by
  rw [trimBoth, List.reverse_reverse]
  exact takeWhile_dropWhile_nil jsWs _

theorem trimBoth_idem (l : List Char) : trimBoth (trimBoth l) = trimBoth l := by
  have h1 : (trimBoth l).dropWhile jsWs = trimBoth l :=
    dropWhile_of_takeWhile_nil (trimBoth_takeWhile_nil l)
  have h2 : (trimBoth l).reverse.dropWhile jsWs = (trimBoth l).reverse :=
    dropWhile_of_takeWhile_nil (trimBoth_reverse_takeWhile_nil l)
  rw [show trimBoth (trimBoth l) =
    (((trimBoth l).dropWhile jsWs).reverse.dropWhile jsWs).reverse from rfl]
  rw [h1, h2, List.reverse_reverse]

theorem sanitizeCore_idem (l : List Char) :
    sanitizeCore (sanitizeCore l) = sanitizeCore l := by
  have hfix : (sanitizeCore l).filter (fun c => !(c == '*' || c == '#')) =
      sanitizeCore l := by
    rw [List.filter_eq_self]
    intro a ha
    have ha' := mem_trimBoth (l := l.filter (fun c => !(c == '*' || c == '#')))
      ha
    exact (List.mem_filter.mp ha').2
  rw [show sanitizeCore (sanitizeCore l) =
    trimBoth ((sanitizeCore l).filter (fun c => !(c == '*' || c == '#')))
    from rfl]
  rw [hfix]
  exact trimBoth_idem _

/-! ### Helper facts used by the claim theorems -/

theorem canon_of_seps : ∀ l : List Char, l.all isSepChar = true → Canon l := by
  intro l
  induction l with
  | nil => intro _; exact Canon.nil
  | cons c t ih =>
    intro h
    rw [List.all_cons, Bool.and_eq_true] at h
    exact Canon.sep h.1 (ih h.2)

theorem foldl_add_map (g : String → ℚ) :
    ∀ (l : List String) (a : ℚ), l.foldl (fun acc i => acc + g i) a =
      a + (l.map g).sum := by
  intro l
  induction l with
  | nil => intro a; simp
  | cons i t ih =>
    intro a
    rw [List.foldl_cons, ih, List.map_cons, List.sum_cons]
    ring

theorem matchPS_drop_take :
    ∀ l m, matchPS l = some m → ∃ i n, m = (l.drop i).take n := by
  intro l
  induction l with
  | nil => intro m h; simp [matchPS] at h
  | cons c t ih =>
    intro m h
    rw [matchPS] at h
    cases hat : matchPSAt (c :: t) with
    | some n =>
      rw [hat] at h
      refine ⟨0, n, ?_⟩
      simpa using h.symm
    | none =>
      rw [hat] at h
      obtain ⟨i, n, hm⟩ := ih m h
      exact ⟨i + 1, n, by simpa using hm⟩

/-! ### The claims -/

/-- C9: the text normalizer `sanitizeText` — remove the `*`/`#` emphasis
markers, then trim the surrounding whitespace — is a pure total function and
is idempotent: `sanitizeText (sanitizeText s) = sanitizeText s` for every
string `s`. -/
theorem c9_normalize_idempotent (s : String) :
    sanitizeText (sanitizeText s) = sanitizeText s := by
  rw [show sanitizeText (sanitizeText s) =
    String.mk (sanitizeCore (sanitizeCore s.data)) from rfl]
  rw [sanitizeCore_idem]
  rfl

/-- C8 fails on the code as stated: `1/3` is one of the claimed canonical
renderings, but `scaleIngredient "1/3 cup" 1 = "0.3 cup"` — the value `1/3`
is not *exactly* `0.33`, so the `commonFractions` lookup misses and the
token is rewritten by `toFixed(1)`. -/
theorem c8_counterexample :
    scaleIngredient "1/3 cup" 1 = "0.3 cup" ∧
    ("0.3 cup" : String) ≠ "1/3 cup" := by
  with_unfolding_all decide

/-- C8 (amended): scaling with factor 1 is the identity on every ingredient
line whose numeric tokens are canonical and exactly representable — bare
integers, one-decimal numbers other than `0.5`, and the fractions `1/4`,
`1/2`, `3/4` — separated by text free of digits, periods and slashes; the
tokens `1/3` and `2/3` are excluded because the code rewrites them to `0.3`
and `0.7`. -/
theorem c8_scale_one_identity (l : List Char) (h : Canon l) :
    scaleIngredient (String.mk l) 1 = String.mk l := by
  rw [scaleIngredient]
  rw [show (String.mk l).data = l from rfl]
  rw [fracPass_canon h, decPass_canon h, intPass_canon h]

/-- C8 witness: the theorem applied to the canonical line `2 cups rice`. -/
theorem c8_witness : scaleIngredient "2 cups rice" 1 = "2 cups rice" :=
  c8_scale_one_identity "2 cups rice".data
    (Canon.tok (t := CanonTok.int 2) trivial (by decide)
      (canon_of_seps " cups rice".data (by decide)))

/-- C2 fails on the code as stated: the three replaces run in sequence on
the successively rewritten line, so the fraction `1/2` scaled by 2 becomes
`1`, which the integer pass then scales again to `2`; a single-replacement
scaling (each original token scaled exactly once) would give `1 cup`. -/
theorem c2_counterexample :
    scaleIngredient "1/2 cup" 2 = "2 cup" ∧
    specScaleOnce "1/2 cup" 2 = "1 cup" ∧
    ("2 cup" : String) ≠ "1 cup" := by
  with_unfolding_all decide

/-- C2 (amended): `scaleIngredient` is the fraction, decimal and integer
passes applied in sequence, each to the output of the previous one (so a
token produced by an earlier pass can be scaled again by a later one), and
each pass replaces a matched token by `renderQ` of its value times the
factor: the fraction pass sends `d1/d2` to `renderQ (d1 / d2 * f)`, the
decimal pass sends `d1.d2` to `renderQ ((d1 + d2 / 10 ^ |d2|) * f)`, and the
integer pass sends a digit run `ds` to `renderQ (ds * f)`. -/
theorem c2_sequential_scaling :
    (∀ (s : String) (f : ℚ), scaleIngredient s f =
      String.mk (intPass f (decPass f (fracPass f s.data)))) ∧
    (∀ (f : ℚ) (d1 d2 rest : List Char), d1 ≠ [] →
      (∀ c ∈ d1, c.isDigit = true) → d2 ≠ [] →
      (∀ c ∈ d2, c.isDigit = true) → rest.takeWhile Char.isDigit = [] →
      fracPass f (d1 ++ ('/' :: (d2 ++ rest))) =
        renderQ ((parseDigits d1 : ℚ) / (parseDigits d2 : ℚ) * f) ++
          fracPass f rest) ∧
    (∀ (f : ℚ) (d1 d2 rest : List Char), d1 ≠ [] →
      (∀ c ∈ d1, c.isDigit = true) → d2 ≠ [] →
      (∀ c ∈ d2, c.isDigit = true) → rest.takeWhile Char.isDigit = [] →
      decPass f (d1 ++ ('.' :: (d2 ++ rest))) =
        renderQ (((parseDigits d1 : ℚ) +
            (parseDigits d2 : ℚ) / (10 : ℚ) ^ d2.length) * f) ++
          decPass f rest) ∧
    (∀ (f : ℚ) (ds rest : List Char), ds ≠ [] →
      (∀ c ∈ ds, c.isDigit = true) → rest.takeWhile Char.isDigit = [] →
      intPass f (ds ++ rest) =
        renderQ ((parseDigits ds : ℚ) * f) ++ intPass f rest) :=
  ⟨fun _ _ => rfl,
   fun f _ _ _ h1 h2 h3 h4 h5 => fracPass_match f h1 h2 h3 h4 h5,
   fun f _ _ _ h1 h2 h3 h4 h5 => decPass_match f h1 h2 h3 h4 h5,
   fun f _ _ h1 h2 h3 => intPass_match f h1 h2 h3⟩

/-- C2 witness: the fraction-pass clause at the concrete token `1/2` of
`1/2 cup`, factor 2. -/
theorem c2_witness :
    fracPass 2 (['1'] ++ ('/' :: (['2'] ++ [' ', 'c', 'u', 'p']))) =
      renderQ ((parseDigits ['1'] : ℚ) / (parseDigits ['2'] : ℚ) * 2) ++
        fracPass 2 [' ', 'c', 'u', 'p'] :=
  c2_sequential_scaling.2.1 2 ['1'] ['2'] [' ', 'c', 'u', 'p']
    (by decide) (by decide) (by decide) (by decide) (by decide)

/-- C5 fails on the code as stated: the multiplier is the *first* numeric
token anywhere in the ingredient, not a leading quantity; for
`olive oil 2 tbsp` (no leading number) the code computes `2 * 120 = 240`
while the claim's leading-quantity rule defaults to 1 and gives 120. -/
theorem c5_counterexample :
    estimateCalories ["olive oil 2 tbsp"] = 240 ∧
    specEstimateC5 ["olive oil 2 tbsp"] = 120 ∧
    (240 : ℚ) ≠ 120 := by
  with_unfolding_all decide

/-- C5 (amended): the fallback sums, over all ingredients, the per-unit
table value times the first numeric token found anywhere in the ingredient
(default 1 when the ingredient has no digit; for goat cheese a `<n>g` match
instead contributes `n / 30`), each ingredient contributing through at most
the first matching table entry; on the spec's example the estimate is
`2 * 120 + 1 * 45 = 285`, reported as `~285 (estimated)`. -/
theorem c5_calorie_fallback :
    (∀ ings : List String,
      estimateCalories ings = (ings.map ingredientCalories).sum) ∧
    estimateCalories ["2 tablespoons olive oil", "1 medium onion"] =
      2 * 120 + 1 * 45 ∧
    caloriesFallback ["2 tablespoons olive oil", "1 medium onion"] =
      some "~285 (estimated)" := by
  refine ⟨fun ings => ?_, ?_, ?_⟩
  · rw [estimateCalories, foldl_add_map]
    ring
  · with_unfolding_all decide
  · with_unfolding_all decide

/-- C10 fails on the code as stated: the label/value split requires a colon
but *not* a non-empty remainder — the line `Calories:` is recorded with the
empty value, where the claim says it would be dropped. -/
theorem c10_counterexample :
    parseNutritionFacts "Calories:" = ([("Calories", "")], "") ∧
    ([("Calories", ("" : String))] : List (String × String)) ≠ [] := by
  with_unfolding_all decide

/-- C10 (amended): a nutrition line with no colon contributes no entry to
the facts mapping, whatever pattern it matches (`Calories 400` is silently
dropped); the split requires only that a colon exist and the label before it
be non-empty — the remainder may be empty, in which case the fact is
recorded with an empty value. -/
theorem c10_no_colon_no_entry :
    (∀ (acc : List (String × String) × String) (line : List Char),
      breakColon (cleanNutLine line) = none →
      (nutritionStep acc line).1 = acc.1) ∧
    parseNutritionFacts "Calories 400" = ([], "") := by
  constructor
  · intro acc line h
    rw [nutritionStep]
    by_cases h1 : noteLine (cleanNutLine line)
    · simp only [h1, if_true]
    · simp only [h1, Bool.false_eq_true, if_false]
      by_cases h2 : caloriesLine (cleanNutLine line)
      · simp only [h2, if_true, h]
      · simp only [h2, Bool.false_eq_true, if_false]
        by_cases h3 : factLabelLine (cleanNutLine line)
        · simp only [h3, if_true, h]
        · simp only [h3, Bool.false_eq_true, if_false]
  · with_unfolding_all decide

/-- C10 witness: the no-colon clause applied to the line `Calories 400`
with a non-empty accumulator. -/
theorem c10_witness :
    (nutritionStep ([("Protein", "10g")], "") "Calories 400".data).1 =
      [("Protein", "10g")] :=
  c10_no_colon_no_entry.1 ([("Protein", "10g")], "") "Calories 400".data
    (by with_unfolding_all decide)

/-- C1 fails on the code as stated: in a recipe with both headers, the line
`2 cups rice` between them is parsed as `cups rice` — the cleanup class
`[-*•\d.]+` strips the bare leading quantity — while the claim's
single-bullet-or-single-ordinal cleanup keeps `2 cups rice`. -/
theorem c1_counterexample :
    (parseRecipeString
      "Tomato Rice\nIngredients:\n2 cups rice\nInstructions:\nCook.").ingredients =
      ["cups rice"] ∧
    specIngredientsC1
      "Tomato Rice\nIngredients:\n2 cups rice\nInstructions:\nCook." =
      some ["2 cups rice"] ∧
    (["cups rice"] : List String) ≠ ["2 cups rice"] := by
  with_unfolding_all decide

/-- C1 (amended): when both the ingredients and the instructions header are
present, the parsed ingredients are exactly the non-empty lines strictly
between them, in original order, each cleaned by removing one leading run of
characters from the class hyphen/asterisk/bullet/digit/period together with
the following whitespace (so a bare leading quantity such as the `2` of
`2 cups rice` is removed) and then trimmed, with lines that come out empty
or start with a section keyword discarded. -/
theorem c1_ingredient_extraction (recipe : String) (i j : Nat)
    (hi : findSection "ingredient" (recipeLines recipe) = some i)
    (hj : findSection "instruction" (recipeLines recipe) = some j) :
    (parseRecipeString recipe).ingredients =
      (((extractSection (recipeLines recipe) (i + 1) j).map
        (fun l => trimBoth (stripBulletRun l))).filter
        (fun l => !l.isEmpty && !sectionKeyword l)).map String.mk := by
  simp only [parseRecipeString, hi, hj]
  rfl

/-- C1 witness: the extraction equation at a concrete recipe. -/
theorem c1_witness :
    (parseRecipeString
      "Tomato Rice\nIngredients:\n- salt\nInstructions:\nCook.").ingredients =
      (((extractSection
          (recipeLines "Tomato Rice\nIngredients:\n- salt\nInstructions:\nCook.")
          (1 + 1) 3).map
        (fun l => trimBoth (stripBulletRun l))).filter
        (fun l => !l.isEmpty && !sectionKeyword l)).map String.mk :=
  c1_ingredient_extraction _ 1 3 (by with_unfolding_all decide)
    (by with_unfolding_all decide)

/-- C3 fails on the code as stated: with the instructions header missing the
ingredients are *not* extracted to the end of the document — they are empty
— and with the tips header missing the substitutions are empty as well. -/
theorem c3_counterexample :
    (parseRecipeString "Soup\nIngredients:\nrice").ingredients = [] ∧
    specIngredientsToEnd "Soup\nIngredients:\nrice" = ["rice"] ∧
    (parseRecipeString
      "T\nIngredients:\nrice\nInstructions:\nCook.\nSubstitutions:\nUse ghee").substitutions =
      [] ∧
    ([] : List String) ≠ ["rice"] := by
  with_unfolding_all decide

/-- C3 (amended): parsing never fails and an absent header yields an empty
section, but extraction of some sections depends on *other* headers: the
ingredients are empty whenever the instructions header is missing, and the
substitutions are empty whenever the tips header is missing; only the
instructions and the tips fall back to the end of the document when their
next boundary (substitutions resp. nutrition) is missing. -/
theorem c3_missing_sections (recipe : String) :
    (findSection "instruction" (recipeLines recipe) = none →
      (parseRecipeString recipe).ingredients = []) ∧
    (findSection "tip" (recipeLines recipe) = none →
      (parseRecipeString recipe).substitutions = []) ∧
    (∀ j, findSection "instruction" (recipeLines recipe) = some j →
      findSection "substitution" (recipeLines recipe) = none →
      (parseRecipeString recipe).instructions =
        (((extractSection (recipeLines recipe) (j + 1)
            (recipeLines recipe).length).map
          (fun l => trimBoth (stripOrdinal l))).filter
          (fun (l : List Char) => !l.isEmpty)).map String.mk) ∧
    (∀ m, findSection "tip" (recipeLines recipe) = some m →
      findSection "nutrition" (recipeLines recipe) = none →
      (parseRecipeString recipe).tips =
        (((extractSection (recipeLines recipe) (m + 1)
            (recipeLines recipe).length).map
          (fun l => trimBoth (stripBulletRun l))).filter
          (fun (l : List Char) => !l.isEmpty)).map String.mk) := by
  refine ⟨?_, ?_, ?_, ?_⟩
  · intro h
    simp only [parseRecipeString, h]
    cases findSection "ingredient" (recipeLines recipe) <;> rfl
  · intro h
    simp only [parseRecipeString, h]
    cases findSection "substitution" (recipeLines recipe) <;> rfl
  · intro j hj hsub
    simp only [parseRecipeString, hj, hsub]
  · intro m hm hnut
    simp only [parseRecipeString, hm, hnut]
    rfl

/-- C3 witness: the first and third clauses at concrete recipes. -/
theorem c3_witness :
    (parseRecipeString "Soup\nIngredients:\nrice").ingredients = [] ∧
    (parseRecipeString "T\nInstructions:\n1. Cook rice.").instructions =
      (((extractSection (recipeLines "T\nInstructions:\n1. Cook rice.") (1 + 1)
          (recipeLines "T\nInstructions:\n1. Cook rice.").length).map
        (fun l => trimBoth (stripOrdinal l))).filter
        (fun (l : List Char) => !l.isEmpty)).map String.mk :=
  ⟨(c3_missing_sections "Soup\nIngredients:\nrice").1
      (by with_unfolding_all decide),
   (c3_missing_sections "T\nInstructions:\n1. Cook rice.").2.2.1 1
      (by with_unfolding_all decide) (by with_unfolding_all decide)⟩

/-- C4 fails on the code as stated: with prep and cook both present but
summing to zero minutes, the code keeps the (empty) embedded total-time
value and never consults the explicit total-time field, while the claim
falls back to that field (`45m`). -/
theorem c4_counterexample :
    derivedTotalTime "Prep time: 0m\nCook time: 0m" "45m" = "" ∧
    specTotalTimeC4 "Prep time: 0m\nCook time: 0m" "45m" = "45m" ∧
    ("" : String) ≠ "45m" := by
  with_unfolding_all decide

/-- C4 (amended): when prep and cook time strings are both present and
their parsed minute sum is positive, the total time is the sum re-rendered
as `Xh Ym` (hour segment omitted when zero); when at least one of prep/cook
is missing, the explicitly stated total-time field is used exactly when it
is non-empty, not the fragment `required:`, and not whitespace-only; in
every remaining case (both present with a zero sum, or the guard failing)
the total time is whatever embedded total-time line the nutrition scan
produced — possibly empty — and the explicit field is ignored. -/
theorem c4_total_time (nutrition explicitTotal : String) :
    ((scanTimes nutrition).1 ≠ [] → (scanTimes nutrition).2.1 ≠ [] →
      0 < parseTimeToMinutes (scanTimes nutrition).1 +
        parseTimeToMinutes (scanTimes nutrition).2.1 →
      derivedTotalTime nutrition explicitTotal =
        String.mk (formatTimeFromMinutes
          (parseTimeToMinutes (scanTimes nutrition).1 +
            parseTimeToMinutes (scanTimes nutrition).2.1))) ∧
    ((scanTimes nutrition).1 ≠ [] → (scanTimes nutrition).2.1 ≠ [] →
      parseTimeToMinutes (scanTimes nutrition).1 +
        parseTimeToMinutes (scanTimes nutrition).2.1 = 0 →
      derivedTotalTime nutrition explicitTotal =
        String.mk (scanTimes nutrition).2.2) ∧
    (((scanTimes nutrition).1 = [] ∨ (scanTimes nutrition).2.1 = []) →
      explicitTotal ≠ "" →
      String.mk (lowerList explicitTotal.data) ≠ "required:" →
      trimBoth explicitTotal.data ≠ [] →
      derivedTotalTime nutrition explicitTotal =
        String.mk (stripMarkdown explicitTotal.data)) ∧
    (((scanTimes nutrition).1 = [] ∨ (scanTimes nutrition).2.1 = []) →
      (explicitTotal = "" ∨ String.mk (lowerList explicitTotal.data) =
        "required:" ∨ trimBoth explicitTotal.data = []) →
      derivedTotalTime nutrition explicitTotal =
        String.mk (scanTimes nutrition).2.2) := by
  refine ⟨?_, ?_, ?_, ?_⟩
  · intro hp hc hpos
    simp only [derivedTotalTime]
    rw [if_pos ⟨hp, hc⟩, if_pos hpos]
  · intro hp hc hzero
    simp only [derivedTotalTime]
    rw [if_pos ⟨hp, hc⟩, if_neg (by omega)]
  · intro hor h1 h2 h3
    simp only [derivedTotalTime]
    rw [if_neg (by rcases hor with h | h <;> simp [h]), if_pos ⟨h1, h2, h3⟩]
  · intro hor hbad
    simp only [derivedTotalTime]
    rw [if_neg (by rcases hor with h | h <;> simp [h]),
      if_neg (by rcases hbad with h | h | h <;> simp [h])]

/-- C4 witness: the zero-sum clause and the guard clause at concrete
inputs. -/
theorem c4_witness :
    derivedTotalTime "Prep time: 0m\nCook time: 0m" "45m" =
      String.mk (scanTimes "Prep time: 0m\nCook time: 0m").2.2 ∧
    derivedTotalTime "" "45m" = String.mk (stripMarkdown "45m".data) :=
  ⟨(c4_total_time "Prep time: 0m\nCook time: 0m" "45m").2.1
      (by with_unfolding_all decide) (by with_unfolding_all decide)
      (by with_unfolding_all decide),
   (c4_total_time "" "45m").2.2.1 (by with_unfolding_all decide)
      (by with_unfolding_all decide) (by with_unfolding_all decide)
      (by with_unfolding_all decide)⟩

/-- C6 fails on the code as stated: for the explicit serving size
`About 1 cup per serving` (no parenthetical, no note marker) the display is
the matched substring `1 cup per serving` — neither the verbatim field nor
the `1 <cleaned text> per serving` reformat; and a non-numeric `servings`
string such as `four` still renders `1 of four portions (estimated)` where
the claim's rule (b) requires a numeric value and would fall to rule (c). -/
theorem c6_counterexample :
    displayServingSize "About 1 cup per serving" "" = "1 cup per serving" ∧
    ("1 cup per serving" : String) ≠ "About 1 cup per serving" ∧
    ("1 cup per serving" : String) ≠
      "1 About 1 cup per serving per serving" ∧
    displayServingSize "" "four" = "1 of four portions (estimated)" ∧
    ("1 of four portions (estimated)" : String) ≠
      "Serving size not specified" := by
  with_unfolding_all decide

/-- C6 (amended): (a) for a non-empty explicit serving-size string without a
parenthesis or `note` marker, the display is the first substring matching
`<digits/periods> <word> per serving` when one exists — a substring of the
field, not necessarily the whole field — and otherwise
`1 <field without leading article and trailing period> per serving`;
(b) otherwise any non-empty servings string (numeric or not) renders
`1 of <servings> portions (estimated)`; (c) otherwise the literal
`Serving size not specified`. -/
theorem c6_serving_size (servingSize servings : String) :
    (servingSize ≠ "" →
      noteMarkerSS (stripMarkdown servingSize.data) = false →
      ∀ m, matchPS servingSize.data = some m →
        displayServingSize servingSize servings = String.mk m ∧
        ∃ i n, m = (servingSize.data.drop i).take n) ∧
    (servingSize ≠ "" →
      noteMarkerSS (stripMarkdown servingSize.data) = false →
      matchPS servingSize.data = none →
      displayServingSize servingSize servings =
        String.mk ('1' :: ' ' ::
          (removeTrailPeriod (removeArticle servingSize.data)) ++
          " per serving".data)) ∧
    ((servingSize = "" ∨
        noteMarkerSS (stripMarkdown servingSize.data) = true) →
      servings ≠ "" →
      displayServingSize servingSize servings =
        String.mk ("1 of ".data ++ stripMarkdown servings.data ++
          " portions (estimated)".data)) ∧
    ((servingSize = "" ∨
        noteMarkerSS (stripMarkdown servingSize.data) = true) →
      servings = "" →
      displayServingSize servingSize servings =
        "Serving size not specified") := by
  refine ⟨?_, ?_, ?_, ?_⟩
  · intro hne hnote m hm
    refine ⟨?_, matchPS_drop_take _ _ hm⟩
    simp only [displayServingSize]
    rw [if_pos ⟨hne, hnote⟩, hm]
  · intro hne hnote hm
    simp only [displayServingSize]
    rw [if_pos ⟨hne, hnote⟩, hm]
  · intro hor hs
    simp only [displayServingSize]
    rw [if_neg (by rcases hor with h | h <;> simp [h]), if_pos hs]
  · intro hor hs
    simp only [displayServingSize]
    rw [if_neg (by rcases hor with h | h <;> simp [h]), if_neg (by simp [hs])]

/-- C6 witness: clause (a) at the concrete field `About 1 cup per serving`
and clause (b) at `servings = "4"`. -/
theorem c6_witness :
    (displayServingSize "About 1 cup per serving" "" =
        String.mk "1 cup per serving".data ∧
      ∃ i n, "1 cup per serving".data =
        ("About 1 cup per serving".data.drop i).take n) ∧
    displayServingSize "" "4" =
      String.mk ("1 of ".data ++ stripMarkdown "4".data ++
        " portions (estimated)".data) :=
  ⟨(c6_serving_size "About 1 cup per serving" "").1
      (by with_unfolding_all decide) (by with_unfolding_all decide)
      "1 cup per serving".data (by with_unfolding_all decide),
   (c6_serving_size "" "4").2.2.1 (Or.inl rfl)
      (by with_unfolding_all decide)⟩

/-- C7 fails on the code as stated: the calories pattern is anchored at the
start of the line, so the claimed tolerance of a leading `~` (or
`Approximately`) does not hold — `~Calories: 400` produces no facts at all,
while the same line without the tilde is recorded. -/
theorem c7_counterexample :
    parseNutritionFacts "~Calories: 400" = ([], "") ∧
    parseNutritionFacts "Calories: 400" = ([("Calories", "400")], "") ∧
    ([] : List (String × String)) ≠ [("Calories", "400")] := by
  with_unfolding_all decide

/-- C7 (amended): each nutrition line is classified by the first matching
pattern in priority order — note marker, then a calories pattern requiring
the line to *begin* with `Calories`, `Estimated Calories` or `Energy` (so a
leading `~` or `Approximately` prevents the match), then the fact labels
(`Protein` anchored at the start, the others matched anywhere in the line) —
with a matched line split on its first colon into label and value and
unmatched lines ignored. -/
theorem c7_line_classification :
    (∀ (acc : List (String × String) × String) (line : List Char),
      nutritionStep acc line =
        match specNutClassify (cleanNutLine line) with
        | some NutTag.note =>
          (acc.1, String.mk (stripMarkdown
            (removeKeyCI "note".data (cleanNutLine line))))
        | some NutTag.cal =>
          (match breakColon (cleanNutLine line) with
            | some (label, rest) =>
              if label ≠ [] then
                (setFact "Calories" (String.mk (stripMarkdown rest)) acc.1,
                  acc.2)
              else acc
            | none => acc)
        | some NutTag.fact =>
          (match breakColon (cleanNutLine line) with
            | some (label, rest) =>
              if label ≠ [] then
                (setFact (String.mk (stripMarkdown label))
                  (String.mk (stripMarkdown rest)) acc.1, acc.2)
              else acc
            | none => acc)
        | none => acc) ∧
    (∀ tail : List Char, caloriesLine ('~' :: tail) = false) := by
  constructor
  · intro acc line
    by_cases h1 : noteLine (cleanNutLine line)
    · simp [nutritionStep, specNutClassify, specNutPatterns, h1]
    · by_cases h2 : caloriesLine (cleanNutLine line)
      · simp [nutritionStep, specNutClassify, specNutPatterns, h1, h2]
      · by_cases h3 : factLabelLine (cleanNutLine line)
        · simp [nutritionStep, specNutClassify, specNutPatterns, h1, h2, h3]
        · simp [nutritionStep, specNutClassify, specNutPatterns, h1, h2, h3]
  · intro _
    rfl

end RecipeSpec
